import Mathlib

/-!
Verification development for `ietf/sync/rfceditor.py`.

This file gives a shallow embedding of the RFC-Editor synchronization module:
the queue reconciler `update_drafts_from_queue`, the index reconciler
`update_docs_from_rfc_index`, the state-annotation decoding inside
`parse_queue`, the publication-date synthesis walk, and the outbound
notifier `post_approved_draft`.  Database rows (documents, aliases, related
documents, events) are modelled as association lists inside explicit state
records; Django queries become list lookups and Django writes become
functional updates.  All definitions are executable so that concrete runs
can be evaluated inside proofs.
-/

/- ------------------------------------------------------------------ -/
/- Outbound notifier: `post_approved_draft` (rfceditor.py 556-598)     -/
/- ------------------------------------------------------------------ -/

/-- The outcome of the `requests.post` call inside `post_approved_draft`:
either an HTTP response (status code and body text) or an exception raised
by the transport layer, carrying its string rendering `str(e)`. -/
inductive PostOutcome where
  | resp (status : Nat) (body : String)
  | exc (msg : String)
deriving DecidableEq, Repr

/-- Model of `post_approved_draft` (rfceditor.py 556-598).  The function
initializes `text = error = ""`, performs the POST, raises a `RuntimeError`
when the status is not 200 or the body is not exactly "OK", and catches
every exception, storing `str(e)` in `error`.  The variable `text` is never
reassigned anywhere in the body, so the returned response text is always
the empty string. -/
def post_approved_draft (_url _name : String) (outcome : PostOutcome) : String × String :=
  match outcome with
  | .exc m => ("", m)
  | .resp status body =>
      if status ≠ 200 then
        ("", "Status code is not 200 OK (it\x27s " ++ toString status ++ ").")
      else if body ≠ "OK" then
        ("", "Response is not \"OK\" (it\x27s \"" ++ body ++ "\").")
      else ("", "")

/- ------------------------------------------------------------------ -/
/- Queue reconciler: `update_drafts_from_queue` (rfceditor.py 124-238) -/
/- ------------------------------------------------------------------ -/

/-- One parsed queue entry, i.e. one tuple
`(draft_name, date_received, state, tags, missref_generation, stream,
auth48, cluster, refs)` appended by `parse_queue` (rfceditor.py 102). -/
structure QueueEntry where
  name : String
  dateReceived : String
  state : String
  tags : List String
  missrefGeneration : String
  stream : Option String
  auth48 : String
  cluster : String
  refs : List (String × String × Bool)
deriving DecidableEq, Repr

/-- A document row as seen by the queue reconciler: its name (primary key),
its type slug, the names of its `DocAlias` rows, its tag slugs, and its
per-state-type lifecycle states as `(state type, slug)` pairs. -/
structure QueueDoc where
  name : String
  dtype : String
  aliases : List String
  tags : List String
  states : List (String × String)
  rev : String
deriving DecidableEq, Repr

/-- A `DocEvent` row: owning document name, document revision at creation
time, event type, and description. -/
structure QueueEvent where
  doc : String
  rev : String
  etype : String
  desc : String
deriving DecidableEq, Repr

/-- The slice of the database touched by `update_drafts_from_queue`:
document rows, the append-only event log, and the `auth48`-tagged
`DocumentURL` rows as `(document name, url)` pairs. -/
structure QueueDb where
  docs : List QueueDoc
  events : List QueueEvent
  auth48Urls : List (String × String)
deriving DecidableEq, Repr

/-- Look up a document row by name (`Document.objects`, names unique). -/
def qdocFind (docs : List QueueDoc) (n : String) : Option QueueDoc :=
  docs.find? (fun d => d.name = n)

/-- Write back a (mutated) document row, replacing the row with the same
name. -/
def qdocSet (docs : List QueueDoc) (d : QueueDoc) : List QueueDoc :=
  docs.map (fun x => if x.name = d.name then d else x)

/-- `doc.get_state(type)`: the slug of the document state for a state type,
if set. -/
def qdocGetState (d : QueueDoc) (t : String) : Option String :=
  (d.states.find? (fun p => p.1 = t)).map (fun p => p.2)

/-- `doc.set_state(state)`: set (or insert) the state slug for a type. -/
def qdocSetState (d : QueueDoc) (t slug : String) : QueueDoc :=
  if d.states.any (fun p => p.1 = t) then
    { d with states := d.states.map (fun p => if p.1 = t then (t, slug) else p) }
  else
    { d with states := d.states ++ [(t, slug)] }

/-- `doc.unset_state(type)`: drop the state for a type. -/
def qdocUnsetState (d : QueueDoc) (t : String) : QueueDoc :=
  { d with states := d.states.filter (fun p => ¬ p.1 = t) }

/-- `d.latest_event(DocEvent, type=...) is not None`: whether the log holds
an event of the given type for the given document. -/
def qHasEvent (db : QueueDb) (docName etype : String) : Bool :=
  db.events.any (fun e => e.doc = docName ∧ e.etype = etype)

/-- The `state_mapping` table (rfceditor.py 135-149): queue state codes to
`draft-rfceditor` state slugs. -/
def state_mapping : List (String × String) :=
  [("AUTH", "auth"), ("AUTH48", "auth48"), ("AUTH48-DONE", "auth48-done"),
   ("EDIT", "edit"), ("IANA", "iana"), ("IESG", "iesg"), ("ISR", "isr"),
   ("ISR-AUTH", "isr-auth"), ("REF", "ref"), ("RFC-EDITOR", "rfc-edit"),
   ("TI", "tooling-issue"), ("TO", "timeout"), ("MISSREF", "missref")]

/-- `state_mapping[state]`, as a partial lookup. -/
def mapState (s : String) : Option String :=
  (state_mapping.find? (fun p => p.1 = s)).map (fun p => p.2)

/-- Python `set.add`: append a name if it is not already present. -/
def insertName (n : String) (l : List String) : List String :=
  if n ∈ l then l else l ++ [n]

/-- Order-independent comparison of two tag-slug lists, the shallow
embedding of `set(t) != set(d.tags.all())` being false. -/
def sameSet (a b : List String) : Bool :=
  a.all (fun x => x ∈ b) && b.all (fun x => x ∈ a)

/-- `update_or_create(tag_id='auth48', defaults=dict(url=...))` on the
document's URL set: update the existing row for the document or append. -/
def upsertAuth48 (urls : List (String × String)) (doc url : String) : List (String × String) :=
  if urls.any (fun p => p.1 = doc) then
    urls.map (fun p => if p.1 = doc then (doc, url) else p)
  else urls ++ [(doc, url)]

/-- Accumulator state threaded through the entry loop of
`update_drafts_from_queue`: the database plus the `changed` set and the
`warnings` list. -/
structure QueueRun where
  db : QueueDb
  changed : List String
  warnings : List String
deriving DecidableEq, Repr

/-- Modelled from the spec: `add_state_change_event` (ietf.doc.utils, not
under src/) records a state-change event for a document and returns it;
§4.3 of the spec treats it as an external capability that produces the
event.  Its exact description text does not matter for any claim. -/
def add_state_change_event (doc rev stype prev next : String) : QueueEvent :=
  ⟨doc, rev, "changed_state",
    "State changed to " ++ next ++ " from " ++ prev ++ " (" ++ stype ++ ")"⟩

/-- Modelled from the spec: `update_action_holders` (ietf.doc.utils, not
under src/) recomputes action holders and may return an event; the spec
(§4.3, §4.4) only requires that a returned event is appended.  It is
modelled as returning no event, which only shortens the per-document event
batch and is unobservable by the claims below. -/
def update_action_holders_event : Option QueueEvent := none

/-- The body of the per-entry loop of `update_drafts_from_queue`
(rfceditor.py 162-227).  `draftsInDb` is the key set of the
`drafts_in_db` dict computed once before the loop. -/
def update_drafts_entry (draftsInDb : List String) (st : QueueRun) (e : QueueEntry) : QueueRun :=
  if ¬ e.name ∈ draftsInDb then
    { st with warnings := st.warnings ++ ["unknown document " ++ e.name] }
  else if e.state = "" ∨ mapState e.state = none then
    { st with warnings :=
        st.warnings ++ ["unknown state \x27" ++ e.state ++ "\x27 for " ++ e.name] }
  else
    let d0 := (qdocFind st.db.docs e.name).getD ⟨e.name, "draft", [], [], [], ""⟩
    let prevState := qdocGetState d0 "draft-rfceditor"
    let nextState := (mapState e.state).getD ""
    -- first contact: "received by RFC Editor" announcement (lines 178-196)
    let firstContact : Bool :=
      qdocGetState d0 "draft-iesg" = some "ann" ∧ prevState = none ∧
        ¬ qHasEvent st.db e.name "rfc_editor_received_announcement"
    let db1 :=
      if firstContact then
        { st.db with events := st.db.events ++
            [⟨e.name, d0.rev, "rfc_editor_received_announcement",
              "Announcement was received by RFC Editor"⟩] }
      else st.db
    let d1 :=
      if firstContact then qdocSetState d0 "draft-iesg" "rfcqueue" else d0
    let evs1 : List QueueEvent :=
      if firstContact then
        [add_state_change_event e.name d1.rev "draft-iesg" "ann" "rfcqueue"] ++
          update_action_holders_event.toList
      else []
    -- draft-rfceditor state change (lines 199-218)
    let stateChanged : Bool := ¬ prevState = some nextState
    let d2 := if stateChanged then qdocSetState d1 "draft-rfceditor" nextState else d1
    let evs2 : List QueueEvent :=
      if stateChanged then
        [add_state_change_event e.name d2.rev "draft-rfceditor"
          (prevState.getD "None") nextState]
      else []
    let urls2 :=
      if stateChanged then
        if ¬ e.auth48 = "" then upsertAuth48 db1.auth48Urls e.name e.auth48
        else db1.auth48Urls.filter (fun p => ¬ p.1 = e.name)
      else db1.auth48Urls
    -- tag reconciliation (lines 220-224): compare against the full tag set
    let t := e.tags.dedup
    let tagsChanged : Bool := ¬ sameSet t d2.tags
    let d3 := if tagsChanged then { d2 with tags := t } else d2
    let db2 := { db1 with
      docs := qdocSet db1.docs d3,
      auth48Urls := urls2,
      events := db1.events ++ evs1 ++ evs2 }
    { db := db2
      changed :=
        if firstContact ∨ stateChanged ∨ tagsChanged then insertName e.name st.changed
        else st.changed
      warnings := st.warnings }

/-- The key set of `drafts_in_db` (rfceditor.py 157-158): names of draft
documents having an alias among the queue entry names. -/
def draftsInDbKeys (db : QueueDb) (names : List String) : List String :=
  (db.docs.filter (fun d => d.dtype = "draft" ∧ d.aliases.any (fun a => a ∈ names))).map
    (fun d => d.name)

/-- Model of `update_drafts_from_queue` (rfceditor.py 124-238).  Returns
`none` exactly when the closing loop would raise a `NameError`: the loop
body reads the variable `name`, which is only bound by the preceding entry
loop, so with an empty `drafts` list and a nonempty set of departed
documents the Python function crashes.  Otherwise returns the updated
database, the `changed` set and the `warnings` list.  Note that the closing
loop adds the *stale* `name` (the last queue entry's draft name) to
`changed`, not the name of the departed document being cleaned up. -/
def update_drafts_from_queue (db : QueueDb) (drafts : List QueueEntry) :
    Option (QueueDb × List String × List String) :=
  let names := drafts.map (fun e => e.name)
  let keys := draftsInDbKeys db names
  let st1 := drafts.foldl (update_drafts_entry keys) ⟨db, [], []⟩
  let leaving := st1.db.docs.filter (fun d =>
    (¬ d.aliases.any (fun a => a ∈ names)) ∧ d.states.any (fun p => p.1 = "draft-rfceditor"))
  if leaving = [] then some (st1.db, st1.changed, st1.warnings)
  else
    match names.getLast? with
    | none => none
    | some staleName =>
        let db' := leaving.foldl (fun acc d =>
          let d' := qdocUnsetState
            { d with tags := d.tags.filter (fun s => ¬ s = "iana" ∧ ¬ s = "ref") }
            "draft-rfceditor"
          { acc with docs := qdocSet acc.docs d' }) st1.db
        some (db', insertName staleName st1.changed, st1.warnings)

/- ------------------------------------------------------------------ -/
/- Queue state-annotation decoding inside `parse_queue` (63-80)        -/
/- ------------------------------------------------------------------ -/

/-- Worker for `pyReplace`, structurally recursive on a fuel argument so
that it evaluates inside the kernel; the fuel is always at least the
length of the string, and every step consumes at least one character, so
the fuel-exhaustion branch is unreachable. -/
def pyReplaceF (pat : List Char) : Nat → List Char → List Char
  | _, [] => []
  | 0, s => s
  | fuel + 1, c :: t =>
      if pat.isPrefixOf (c :: t) ∧ ¬ pat = [] then
        pyReplaceF pat fuel ((c :: t).drop pat.length)
      else
        c :: pyReplaceF pat fuel t

/-- Python `str.replace(pat, "")` for a nonempty pattern: scan left to
right, removing each non-overlapping occurrence of `pat`. -/
def pyReplace (pat s : List Char) : List Char := pyReplaceF pat s.length s

/-- Python `pat in s`: substring containment. -/
def hasSub (pat : List Char) : List Char → Bool
  | [] => pat.isEmpty
  | c :: t => pat.isPrefixOf (c :: t) || hasSub pat t

/-- The longest run of decimal digits at the front of a string. -/
def digitRun : List Char → List Char
  | [] => []
  | c :: t => if c.isDigit then c :: digitRun t else []

/-- Try to match the regex `\(([0-9]+)G\)` at the head of the string,
returning the digit group.  With a literal suffix `G)` after a greedy
digit run, the Python regex engine matches exactly a maximal nonempty
digit run followed by `G)`. -/
def gMatchHere (s : List Char) : Option (List Char) :=
  match s with
  | [] => none
  | c :: rest =>
      if c = '(' then
        let ds := digitRun rest
        if ¬ ds = [] ∧ (rest.drop ds.length).take 2 = ['G', ')'] then some ds
        else none
      else none

/-- `re.search(r"\(([0-9]+)G\)", state)`: the digit group of the leftmost
match, if any. -/
def gSearch : List Char → Option (List Char)
  | [] => none
  | c :: t =>
      match gMatchHere (c :: t) with
      | some ds => some ds
      | none => gSearch t

/-- The state-annotation decoding inside `parse_queue` (rfceditor.py
63-80): strip `*R` (tag "ref"), then `*A` (tag "iana"), then the first
`(<digits>G)` generation marker.  Returns the final state string, the tag
list, and the `missref_generation` digits. -/
def parse_queue_state (state : List Char) : List Char × List String × List Char :=
  let a1 :=
    if hasSub ['*', 'R'] state then (["ref"], pyReplace ['*', 'R'] state)
    else ([], state)
  let a2 :=
    if hasSub ['*', 'A'] a1.2 then (a1.1 ++ ["iana"], pyReplace ['*', 'A'] a1.2)
    else a1
  match gSearch a2.2 with
  | some ds => (pyReplace ('(' :: ds ++ ['G', ')']) a2.2, a2.1, ds)
  | none => (a2.2, a2.1, [])

/-- The same decoding with the two marker-stripping steps performed in the
opposite order (`*A` first, then `*R`); used to state the claim that the
final state string does not depend on the strip order. -/
def parse_queue_state_swapped (state : List Char) : List Char × List Char :=
  let s1 := if hasSub ['*', 'A'] state then pyReplace ['*', 'A'] state else state
  let s2 := if hasSub ['*', 'R'] s1 then pyReplace ['*', 'R'] s1 else s1
  match gSearch s2 with
  | some ds => (pyReplace ('(' :: ds ++ ['G', ')']) s2, ds)
  | none => (s2, [])

/-- Every `*` in the string is immediately followed by `u` or `v`. -/
def starsMarked (u v : Char) : List Char → Bool
  | [] => true
  | c :: t =>
      (if c = '*' then
        match t with
        | [] => false
        | d :: _ => decide (d = u ∨ d = v)
      else true) && starsMarked u v t

/-- Well-formed marker layout: every `*` in the state string is immediately
followed by `R` or `A`, so marker occurrences are disjoint and stripping
one marker cannot create an occurrence of the other. -/
def starsOk (s : List Char) : Bool := starsMarked 'R' 'A' s

/- ------------------------------------------------------------------ -/
/- Publication-date synthesis (rfceditor.py 445-466)                   -/
/- ------------------------------------------------------------------ -/

/-- A calendar date in the reference time zone (`RPC_TZINFO`).  The
publication-event synthesis only inspects year, month and day, and steps
by whole days, so the time of day is abstracted away. -/
structure CalDate where
  year : Nat
  month : Nat
  day : Nat
deriving DecidableEq, Repr

/-- Gregorian leap year. -/
def isLeap (y : Nat) : Bool := (y % 4 = 0 ∧ ¬ y % 100 = 0) ∨ y % 400 = 0

/-- Number of days in a month (Gregorian). -/
def daysInMonth (y m : Nat) : Nat :=
  if m = 2 then (if isLeap y then 29 else 28)
  else if m = 4 ∨ m = 6 ∨ m = 9 ∨ m = 11 then 30
  else 31

/-- Days in the year `y` strictly before month `m`. -/
def daysBeforeMonth (y m : Nat) : Nat :=
  let l : Nat := if isLeap y then 1 else 0
  if m ≤ 1 then 0
  else if m = 2 then 31
  else if m = 3 then 59 + l
  else if m = 4 then 90 + l
  else if m = 5 then 120 + l
  else if m = 6 then 151 + l
  else if m = 7 then 181 + l
  else if m = 8 then 212 + l
  else if m = 9 then 243 + l
  else if m = 10 then 273 + l
  else if m = 11 then 304 + l
  else 334 + l

/-- Days strictly before January 1 of year `y` (proleptic Gregorian,
counting from year 1). -/
def daysBeforeYear (y : Nat) : Nat :=
  365 * (y - 1) + (y - 1) / 4 - (y - 1) / 100 + (y - 1) / 400

/-- Day number of a date (its rank among all days, used to model datetime
subtraction: `a - b` in days is `rataDie a - rataDie b`). -/
def rataDie (d : CalDate) : Nat :=
  daysBeforeYear d.year + daysBeforeMonth d.year d.month + (d.day - 1)

/-- A well-formed calendar date. -/
def ValidDate (d : CalDate) : Prop :=
  1 ≤ d.year ∧ 1 ≤ d.month ∧ d.month ≤ 12 ∧ 1 ≤ d.day ∧ d.day ≤ daysInMonth d.year d.month

instance (d : CalDate) : Decidable (ValidDate d) := by
  unfold ValidDate; infer_instance

/-- `synthesized += datetime.timedelta(days=+1)`. -/
def nextDay (x : CalDate) : CalDate :=
  if x.day < daysInMonth x.year x.month then ⟨x.year, x.month, x.day + 1⟩
  else if x.month < 12 then ⟨x.year, x.month + 1, 1⟩
  else ⟨x.year + 1, 1, 1⟩

/-- `synthesized += datetime.timedelta(days=-1)`. -/
def prevDay (x : CalDate) : CalDate :=
  if 1 < x.day then ⟨x.year, x.month, x.day - 1⟩
  else if 1 < x.month then ⟨x.year, x.month - 1, daysInMonth x.year (x.month - 1)⟩
  else ⟨x.year - 1, 12, 31⟩

/-- The `while synthesized.month != d.month or synthesized.year != d.year`
walk (rfceditor.py 464-465), with explicit fuel standing in for the
unbounded loop; `none` means the fuel ran out before the condition became
false.  `up` is the sign of `direction`. -/
def dayWalk (target : CalDate) (up : Bool) : Nat → CalDate → Option CalDate
  | 0, x => if x.month = target.month ∧ x.year = target.year then some x else none
  | f + 1, x =>
      if x.month = target.month ∧ x.year = target.year then some x
      else dayWalk target up f (if up then nextDay x else prevDay x)

/-- The publication-timestamp synthesis (rfceditor.py 458-466): `d` is the
feed date (day 1 of the published month/year) and `now` the current time
in the reference zone.  If they are more than 60 days apart the candidate
is taken as is; otherwise the code walks day by day from `now` toward `d`
until month and year match.  The walk is given fuel 61; the fallback
`.getD d` is never exercised because the walk provably succeeds within the
60-day window (see the termination theorem below). -/
def synthesized_time (d now : CalDate) : CalDate :=
  if ((rataDie d : Int) - rataDie now).natAbs > 60 then d
  else (dayWalk d (decide (0 ≤ (rataDie d : Int) - rataDie now)) 61 now).getD d

/- ------------------------------------------------------------------ -/
/- Index reconciler: `update_docs_from_rfc_index` (rfceditor.py 335-553) -/
/- ------------------------------------------------------------------ -/

/-- One parsed index entry, i.e. one tuple appended by `parse_index`
(rfceditor.py 323).  `rfc_published_date` is `date(pubYear, pubMonth, 1)`.
`wg` is `None` when absent or discarded; `hasErrata` is the truthiness of
the 0/1 flag. -/
structure IndexEntry where
  rfcNumber : Nat
  title : String
  authors : List String
  pubYear : Nat
  pubMonth : Nat
  currentStatus : String
  updates : List String
  updatedBy : List String
  obsoletes : List String
  obsoletedBy : List String
  also : List String
  draft : String
  hasErrata : Bool
  stream : String
  wg : Option String
  fileFormats : String
  pages : String
  abstract : String
deriving DecidableEq, Repr

/-- An errata record from the externally supplied errata dataset: its
`doc-id` and its `errata_status_code`. -/
structure Erratum where
  docId : String
  status : String
deriving DecidableEq, Repr

/-- A document row as seen by the index reconciler.  Optional fields are
`None` on a freshly created `Document`. -/
structure IndexDoc where
  name : String
  title : String
  abstract : String
  pages : Option Nat
  stdLevel : Option String
  stream : Option String
  group : Option String
  rev : String
  tags : List String
  states : List (String × String)
deriving DecidableEq, Repr

/-- A `DocEvent` row created by the index reconciler. -/
structure IndexEvent where
  doc : String
  rev : String
  etype : String
  desc : String
deriving DecidableEq, Repr

/-- The slice of the database touched by `update_docs_from_rfc_index`:
document rows, `DocAlias` rows as `(alias name, document name)` pairs,
`RelatedDocument` rows as `(source document name, target alias name,
relationship slug)` triples, and the event log. -/
structure IndexDb where
  docs : List IndexDoc
  aliases : List (String × String)
  rels : List (String × String × String)
  events : List IndexEvent
deriving DecidableEq, Repr

/-- `DocAlias.objects.filter(name=n)` followed by `[0].document`. -/
def aliasFind (aliases : List (String × String)) (n : String) : Option String :=
  (aliases.find? (fun p => p.1 = n)).map (fun p => p.2)

/-- Look up a document row by name. -/
def docFind (docs : List IndexDoc) (n : String) : Option IndexDoc :=
  docs.find? (fun d => d.name = n)

/-- Write back a (mutated) document row, replacing the row with the same
name. -/
def docSet (docs : List IndexDoc) (d : IndexDoc) : List IndexDoc :=
  docs.map (fun x => if x.name = d.name then d else x)

/-- `doc.get_state(type)` for the index reconciler's document rows. -/
def docGetState (d : IndexDoc) (t : String) : Option String :=
  (d.states.find? (fun p => p.1 = t)).map (fun p => p.2)

/-- `doc.set_state(state)` for the index reconciler's document rows. -/
def docSetState (d : IndexDoc) (t slug : String) : IndexDoc :=
  if d.states.any (fun p => p.1 = t) then
    { d with states := d.states.map (fun p => if p.1 = t then (t, slug) else p) }
  else
    { d with states := d.states ++ [(t, slug)] }

/-- `doc.latest_event(type=...) is not None` on the index event log. -/
def hasEvent (db : IndexDb) (docName etype : String) : Bool :=
  db.events.any (fun e => e.doc = docName ∧ e.etype = etype)

/-- The number of `RelatedDocument` rows equal to a given
`(source, target, kind)` triple. -/
def countTriple (rels : List (String × String × String))
    (t : String × String × String) : Nat :=
  rels.countP (fun r => r = t)

/-- `"%04d" % n`: decimal rendering zero-padded to width 4. -/
def pad4 (n : Nat) : String :=
  let s := toString n
  String.mk (List.replicate (4 - s.length) '0') ++ s

/-- `"%02d" % n`: decimal rendering zero-padded to width 2. -/
def pad2 (n : Nat) : String :=
  let s := toString n
  String.mk (List.replicate (2 - s.length) '0') ++ s

/-- `strftime("%Y-%m-%d")`. -/
def fmtDate (d : CalDate) : String :=
  pad4 d.year ++ "-" ++ pad2 d.month ++ "-" ++ pad2 d.day

/-- The grouping of errata records by `doc-id` (rfceditor.py 343-348)
followed by `errata.get('RFC%04d' % rfc_number, [])` (line 520): the
records whose `doc-id` is the zero-padded RFC identifier, in feed order. -/
def docErrata (errata : List Erratum) (rfcNumber : Nat) : List Erratum :=
  errata.filter (fun er => er.docId = "RFC" ++ pad4 rfcNumber)

/-- The `std_level_mapping` table (rfceditor.py 350-360) as a total
function on status texts; the source raises `KeyError` on a status outside
the table, so only the nine listed keys are meaningful (the default branch
echoes the key and is never relied upon by a theorem). -/
def std_level_mapping (s : String) : String :=
  if s = "Standard" ∨ s = "Internet Standard" then "std"
  else if s = "Draft Standard" then "ds"
  else if s = "Proposed Standard" then "ps"
  else if s = "Informational" then "inf"
  else if s = "Experimental" then "exp"
  else if s = "Best Current Practice" then "bcp"
  else if s = "Historic" then "hist"
  else if s = "Unknown" then "unkn"
  else s

/-- The `stream_mapping` table (rfceditor.py 362-368) as a total function,
with the same `KeyError` caveat as `std_level_mapping`. -/
def stream_mapping (s : String) : String :=
  if s = "IETF" then "ietf"
  else if s = "INDEPENDENT" then "ise"
  else if s = "IRTF" then "irtf"
  else if s = "IAB" then "iab"
  else if s = "Legacy" then "legacy"
  else s

/-- Modelled from the spec: `prettify_std_name` (ietf.doc.utils, not under
src/) formats a standard name for display inside change notes; the spec
never constrains its output and no claim depends on it, so it is modelled
as the identity. -/
def prettify_std_name (s : String) : String := s

/-- `int(pages)` (rfceditor.py 421): the page-count string parsed as a
decimal number.  The source raises `ValueError` on a nonempty non-numeric
string; the model's default of 0 in that corner is never relied upon by a
theorem (the guards require the string to be empty or numeric). -/
def pagesInt (pages : String) : Nat := pages.toNat?.getD 0

/-- Document resolution (rfceditor.py 390-410): look up the alias
`rfc<number>`; failing that, resolve via the entry's draft name; failing
that, create a new document.  In the latter two cases the canonical alias
is created and attached.  Returns the updated database, the resolved
document name, and the change notes in source order. -/
def resolveDoc (db : IndexDb) (e : IndexEntry) : IndexDb × String × List String :=
  let name := "rfc" ++ toString e.rfcNumber
  match aliasFind db.aliases name with
  | some k => (db, k, [])
  | none =>
      let viaDraft : Option String :=
        if ¬ e.draft = "" then (docFind db.docs e.draft).map (fun d => d.name) else none
      match viaDraft with
      | some k =>
          ({ db with aliases := db.aliases ++ [(name, k)] }, k,
            ["created alias " ++ prettify_std_name name])
      | none =>
          let newDoc : IndexDoc :=
            { name := name, title := "", abstract := "", pages := none, stdLevel := none,
              stream := none, group := none, rev := "", tags := [], states := [] }
          ({ db with docs := db.docs ++ [newDoc], aliases := db.aliases ++ [(name, name)] },
            name,
            ["created document " ++ prettify_std_name name,
             "created alias " ++ prettify_std_name name])

/-- The title check (rfceditor.py 413-415), threading a (document, change
notes) accumulator like the checks that follow it. -/
def checkTitle (e : IndexEntry) (a : IndexDoc × List String) : IndexDoc × List String :=
  if ¬ e.title = a.1.title then
    ({ a.1 with title := e.title }, a.2 ++ ["changed title to \x27" ++ e.title ++ "\x27"])
  else a

/-- The abstract check (rfceditor.py 417-419). -/
def checkAbstract (e : IndexEntry) (a : IndexDoc × List String) : IndexDoc × List String :=
  if ¬ e.abstract = "" ∧ ¬ e.abstract = a.1.abstract then
    ({ a.1 with abstract := e.abstract },
     a.2 ++ ["changed abstract to \x27" ++ e.abstract ++ "\x27"])
  else a

/-- The page-count check (rfceditor.py 421-423). -/
def checkPages (e : IndexEntry) (a : IndexDoc × List String) : IndexDoc × List String :=
  if ¬ e.pages = "" ∧ ¬ a.1.pages = some (pagesInt e.pages) then
    ({ a.1 with pages := some (pagesInt e.pages) },
     a.2 ++ ["changed pages to " ++ toString (pagesInt e.pages)])
  else a

/-- The standardization-level check (rfceditor.py 425-427). -/
def checkStdLevel (e : IndexEntry) (a : IndexDoc × List String) : IndexDoc × List String :=
  if ¬ a.1.stdLevel = some (std_level_mapping e.currentStatus) then
    ({ a.1 with stdLevel := some (std_level_mapping e.currentStatus) },
     a.2 ++ ["changed standardization level to " ++ std_level_mapping e.currentStatus])
  else a

/-- The lifecycle-state check (rfceditor.py 429-432); also triggers
`move_draft_files_to_archive`, an external capability outside the modelled
state. -/
def checkRfcState (a : IndexDoc × List String) : IndexDoc × List String :=
  if ¬ docGetState a.1 "draft" = some "rfc" then
    (docSetState a.1 "draft" "rfc", a.2 ++ ["changed state to rfc"])
  else a

/-- The stream check (rfceditor.py 434-436). -/
def checkStream (e : IndexEntry) (a : IndexDoc × List String) : IndexDoc × List String :=
  if ¬ a.1.stream = some (stream_mapping e.stream) then
    ({ a.1 with stream := some (stream_mapping e.stream) },
     a.2 ++ ["changed stream to " ++ stream_mapping e.stream])
  else a

/-- The group assignment (rfceditor.py 438-443): only when no group is
set; `Group.objects.get(acronym=wg)` is modelled by the acronym itself and
the `individ` fallback by the fixed key "individ". -/
def checkGroup (e : IndexEntry) (a : IndexDoc × List String) : IndexDoc × List String :=
  match a.1.group with
  | some _ => a
  | none =>
      match e.wg with
      | some w => ({ a.1 with group := some w }, a.2 ++ ["set group to " ++ w])
      | none => ({ a.1 with group := some "individ" }, a.2)

/-- The attribute checks (rfceditor.py 412-443): title, abstract, pages,
standardization level, lifecycle state, stream and group, each change-gated
and logged, in source order.  Pure transformation of the document row. -/
def applyDocChecks (e : IndexEntry) (d : IndexDoc) : IndexDoc × List String :=
  checkGroup e (checkStream e (checkRfcState (checkStdLevel e (checkPages e
    (checkAbstract e (checkTitle e (d, [])))))))

/-- The downstream lifecycle-state loop (rfceditor.py 475-486) over the
four tracked state types, in source order.  `update_action_holders` is
modelled as producing no event (see `update_action_holders_event`), so the
step is a pure transformation of the document row. -/
def stateFixStep (t : String) (a : IndexDoc × List String) : IndexDoc × List String :=
  match docGetState a.1 t with
  | some slug =>
      if ¬ slug = "pub" ∧ ¬ slug = "idexists" then
        (docSetState a.1 t "pub", a.2 ++ ["changed " ++ t ++ " to pub"])
      else a
  | none =>
      if t = "draft-iesg" then (docSetState a.1 t "idexists", a.2) else a

def applyStateFixups (d : IndexDoc) : IndexDoc × List String :=
  stateFixStep "draft-stream-ise" (stateFixStep "draft-stream-irtf"
    (stateFixStep "draft-stream-iab" (stateFixStep "draft-iesg" (d, []))))

/-- `parse_relation_list` (rfceditor.py 488-501): resolve each
cross-reference identifier to alias rows and deduplicate, preserving
order.  Identifiers with legacy prefixes NIC/IEN/STD/RTR resolve to the
`rfc...`-named aliases of any document that carries the lowercased
identifier as an alias; all others resolve by direct alias-name lookup.
Aliases are represented by their names (alias names are unique). -/
def parse_relation_list (aliases : List (String × String)) (l : List String) : List String :=
  l.foldl (fun res x =>
    let found :=
      if x.take 3 = "NIC" ∨ x.take 3 = "IEN" ∨ x.take 3 = "STD" ∨ x.take 3 = "RTR" then
        (aliases.filter (fun p =>
          p.1.startsWith "rfc" ∧ aliases.any (fun q => q.1 = x.toLower ∧ q.2 = p.2))).map
          (fun p => p.1)
      else
        (aliases.filter (fun p => p.1 = x.toLower)).map (fun p => p.1)
    found.foldl (fun r a => if a ∈ r then r else r ++ [a]) res) []

/-- The relationship-creation loops (rfceditor.py 503-511): for each
resolved target alias, create the `(source, target, kind)` edge unless an
edge with exactly that triple already exists; log each creation.
`kindName` is `relationship.name.lower()` used in the change note. -/
def addRels (db : IndexDb) (src kind kindName : String) :
    List String → IndexDb × List String
  | [] => (db, [])
  | x :: ts =>
      if db.rels.any (fun r => r.1 = src ∧ r.2.1 = x ∧ r.2.2 = kind) then
        addRels db src kind kindName ts
      else
        let r := addRels { db with rels := db.rels ++ [(src, x, kind)] } src kind kindName ts
        (r.1, ("created " ++ kindName ++ " relation between " ++
               prettify_std_name src ++ " and " ++ prettify_std_name x) :: r.2)

/-- The also-alias loop (rfceditor.py 513-518): create each lowercased
`also` identifier as an alias of the document unless an alias with that
name already exists; log each creation. -/
def addAlsoAliases (db : IndexDb) (k : String) : List String → IndexDb × List String
  | [] => (db, [])
  | a :: rest =>
      if db.aliases.any (fun p => p.1 = a.toLower) then addAlsoAliases db k rest
      else
        let r := addAlsoAliases
          { db with aliases := db.aliases ++ [(a.toLower, k)] } k rest
        (r.1, ("created alias " ++ prettify_std_name a.toLower) :: r.2)

/-- The errata-tag reconciliation (rfceditor.py 520-539).  `all_rejected`
is Python-truthy only when the document has at least one associated
erratum and every one is "Rejected".  Pure transformation of the document
row. -/
def applyErrataTags (errata : List Erratum) (rfcNumber : Nat) (hasErrata : Bool)
    (d : IndexDoc) : IndexDoc × List String :=
  let de := docErrata errata rfcNumber
  let allRejected : Bool := (¬ de = []) ∧ de.all (fun er => er.status = "Rejected")
  if hasErrata ∧ ¬ allRejected then
    let a :=
      if "errata" ∈ d.tags then (d, ([] : List String))
      else ({ d with tags := d.tags ++ ["errata"] }, ["added Errata tag"])
    let hasVerified : Bool := de.any (fun er => er.status = "Verified")
    if hasVerified ∧ ¬ "verified-errata" ∈ a.1.tags then
      ({ a.1 with tags := a.1.tags ++ ["verified-errata"] },
       a.2 ++ ["added Verified Errata tag"])
    else a
  else
    let a :=
      if "errata" ∈ d.tags then
        ({ d with tags := d.tags.filter (fun s => ¬ s = "errata") },
         if allRejected then ["removed Errata tag (all errata rejected)"]
         else ["removed Errata tag"])
      else (d, ([] : List String))
    if "verified-errata" ∈ a.1.tags then
      ({ a.1 with tags := a.1.tags.filter (fun s => ¬ s = "verified-errata") },
       a.2 ++ ["removed Verified Errata tag"])
    else a

/-- Placeholder document row used to read the result of `docFind` when the
resolution step guarantees the row exists (Django hands back the live
object; the placeholder is never reached under that guarantee). -/
def dummyDoc : IndexDoc :=
  { name := "", title := "", abstract := "", pages := none, stdLevel := none,
    stream := none, group := none, rev := "", tags := [], states := [] }

/-- The body of the per-entry loop of `update_docs_from_rfc_index`
(rfceditor.py 377-553) for one index entry: resolve the document, apply
the change-gated attribute checks, synthesize the publication event if
absent, fix up downstream lifecycle states, create missing relationship
edges and also-aliases, reconcile errata tags, and finally append the
consolidated sync event and persist if and only if the change list is
nonempty.  (Scalar field writes are persisted here unconditionally; in the
source they are persisted by `save_with_history`, which runs exactly when
the change list is nonempty, and every unlogged write sets a value that
the next run would recompute identically, so the difference is
unobservable in the yielded change lists.) -/
def processIndexEntry (now : CalDate) (errata : List Erratum) (db : IndexDb)
    (e : IndexEntry) : IndexDb × List String :=
  let r := resolveDoc db e
  let db1 := r.1
  let k := r.2.1
  let cs0 := r.2.2
  let d0 := (docFind db1.docs k).getD dummyDoc
  let a1 := applyDocChecks e d0
  let needPub : Bool := ¬ hasEvent db1 k "published_rfc"
  let pubTime := synthesized_time ⟨e.pubYear, e.pubMonth, 1⟩ now
  let pubEvents : List IndexEvent :=
    if needPub then [⟨k, a1.1.rev, "published_rfc", "RFC published"⟩] else []
  let csP := if needPub then ["added RFC published event at " ++ fmtDate pubTime] else []
  let a2 := applyStateFixups a1.1
  let b1 := addRels db1 k "obs" "obsoletes" (parse_relation_list db1.aliases e.obsoletes)
  let b2 := addRels b1.1 k "updates" "updates" (parse_relation_list b1.1.aliases e.updates)
  let b3 := addAlsoAliases b2.1 k e.also
  let a3 := applyErrataTags errata e.rfcNumber e.hasErrata a2.1
  let cs := cs0 ++ a1.2 ++ csP ++ a2.2 ++ b1.2 ++ b2.2 ++ b3.2 ++ a3.2
  let db5 := { b3.1 with docs := docSet b3.1.docs a3.1 }
  if cs = [] then (db5, [])
  else
    ({ db5 with events := db5.events ++ pubEvents ++
        [⟨k, a3.1.rev, "sync_from_rfc_editor",
          "Received changes through RFC Editor sync (" ++ String.intercalate ", " cs ++ ")"⟩] },
     cs)

/-- Python `date` comparison: lexicographic on (year, month, day). -/
def dateLt (a b : CalDate) : Bool :=
  a.year < b.year ∨ (a.year = b.year ∧
    (a.month < b.month ∨ (a.month = b.month ∧ a.day < b.day)))

/-- The canonical name `"rfc%s" % rfc_number` of an index entry. -/
def rfcName (e : IndexEntry) : String := "rfc" ++ toString e.rfcNumber

/-- The errata-tag postcondition of `update_docs_from_rfc_index` for one
document (rfceditor.py 520-539), phrased on the document row. -/
def errataTagsSettled (errata : List Erratum) (e : IndexEntry) (d : IndexDoc) : Prop :=
  let de := docErrata errata e.rfcNumber
  let allRejected : Bool := (¬ de = []) ∧ de.all (fun er => er.status = "Rejected")
  if e.hasErrata ∧ ¬ allRejected then
    "errata" ∈ d.tags ∧
      (de.any (fun er => er.status = "Verified") = true → "verified-errata" ∈ d.tags)
  else
    ¬ "errata" ∈ d.tags ∧ ¬ "verified-errata" ∈ d.tags

/-- Bool-level string prefix test on the underlying character lists, used
to state that no change note of certain kinds was recorded. -/
def isHeadOf (p s : String) : Bool := p.toList.isPrefixOf s.toList

/-- The scalar columns of a document row (everything except the tag list
and the state set), bundled so frame lemmas can preserve them at once. -/
def docScalars (d : IndexDoc) :
    String × String × String × Option Nat × Option String × Option String ×
      Option String × String :=
  (d.name, d.title, d.abstract, d.pages, d.stdLevel, d.stream, d.group, d.rev)

/- ------------------------------------------------------------------ -/
/- Concrete fixtures used to evaluate the models inside proofs         -/
/- ------------------------------------------------------------------ -/

/-- Fixture: a draft document sitting in the EDIT editorial state. -/
def exQueueDocA : QueueDoc :=
  ⟨"draft-a", "draft", ["draft-a"], [], [("draft-rfceditor", "edit")], "01"⟩

/-- Fixture: the same document additionally carrying the "errata" tag. -/
def exQueueDocAErrata : QueueDoc :=
  ⟨"draft-a", "draft", ["draft-a"], ["errata"], [("draft-rfceditor", "edit")], "01"⟩

/-- Fixture: a second draft document with an editorial state, not present
in the queue. -/
def exQueueDocB : QueueDoc :=
  ⟨"draft-b", "draft", ["draft-b"], [], [("draft-rfceditor", "auth")], "00"⟩

/-- Fixture: a queue entry for `draft-a` whose state matches the stored
one, with no annotation tags. -/
def exQueueEntryA : QueueEntry := ⟨"draft-a", "", "EDIT", [], "", none, "", "", []⟩

/-- Fixture: a queue entry for `draft-a` with the unrecognized state code
"BOGUS". -/
def exQueueEntryBogus : QueueEntry := ⟨"draft-a", "", "BOGUS", [], "", none, "", "", []⟩

/-- Fixture: a document row for RFC 7. -/
def exDocRfc7 : IndexDoc := ⟨"rfc7", "T", "", none, none, none, none, "00", [], []⟩

/-- Fixture: a database holding RFC 7 with its canonical alias. -/
def exDbRfc7 : IndexDb := ⟨[exDocRfc7], [("rfc7", "rfc7")], [], []⟩

/-- Fixture: an index entry for RFC 7 whose feed reports errata. -/
def exEntry7Errata : IndexEntry :=
  ⟨7, "T", [], 2024, 3, "Unknown", [], [], [], [], [], "", true, "IETF", none, "", "", ""⟩

/-- Fixture: an index entry for RFC 7 with an empty abstract but a
nonempty page count, and no errata. -/
def exEntry7Mixed : IndexEntry :=
  ⟨7, "T", [], 2024, 3, "Unknown", [], [], [], [], [], "", false, "IETF", none, "", "42", ""⟩

/- ------------------------------------------------------------------ -/
/- Helper lemmas                                                       -/
/- ------------------------------------------------------------------ -/

theorem qdocFind_name {docs : List QueueDoc} {n : String} {d : QueueDoc}
    (h : qdocFind docs n = some d) : d.name = n := by
  have := List.find?_some h
  simpa using this

theorem qdocFind_qdocSet_self {docs : List QueueDoc} {n : String} {d0 : QueueDoc}
    (d : QueueDoc) (h : qdocFind docs n = some d0) (hd : d.name = n) :
    qdocFind (qdocSet docs d) n = some d := by
  induction docs with
  | nil => simp [qdocFind] at h
  | cons x xs ih =>
      by_cases hx : x.name = n
      · have hxd : x.name = d.name := hx.trans hd.symm
        simp only [qdocFind, qdocSet, List.map_cons, if_pos hxd]
        exact List.find?_cons_of_pos _ (by simp [hd])
      · simp only [qdocFind] at h
        rw [List.find?_cons_of_neg _ (by simpa using hx)] at h
        simp only [qdocFind, qdocSet, List.map_cons]
        rw [if_neg (fun hc => hx (hc.trans hd)), List.find?_cons_of_neg _ (by simpa using hx)]
        exact ih h

theorem qdocSetState_name (d : QueueDoc) (t slug : String) :
    (qdocSetState d t slug).name = d.name := by
  unfold qdocSetState; split <;> rfl

theorem qdocSetState_tags (d : QueueDoc) (t slug : String) :
    (qdocSetState d t slug).tags = d.tags := by
  unfold qdocSetState; split <;> rfl

/- ------------------------------------------------------------------ -/
/- C2                                                                  -/
/- ------------------------------------------------------------------ -/

/-- C2: evaluating `post_approved_draft` at the failing input.  On an HTTP
200 response with body exactly "OK" the source returns `("", "")`, not
`("OK", "")` as the claim states: the local variable `text` is
initialized to the empty string and never reassigned, so the response text
is lost.  The error-string conjuncts of the claim do hold (non-200 and
non-"OK" responses produce the described messages and exceptions are
converted to strings), but the success tuple differs. -/
theorem post_approved_draft_success_returns_empty_text :
    post_approved_draft "https://rfc-editor.example/post" "draft-foo-bar"
      (.resp 200 "OK") = ("", "") ∧
    post_approved_draft "https://rfc-editor.example/post" "draft-foo-bar"
      (.resp 200 "FAIL") =
      ("", "Response is not \"OK\" (it\x27s \"FAIL\").") := by
  constructor <;> rfl

/- ------------------------------------------------------------------ -/
/- C8                                                                  -/
/- ------------------------------------------------------------------ -/

/-- C8: for a queue entry whose document is known but whose state code is
outside the lifecycle-state table, the loop body only appends the warning
"unknown state '<code>' for <name>" — database, changed set and the other
warnings are untouched — and the surrounding fold carries on processing
the remaining entries from exactly that state. -/
theorem update_drafts_unknown_state_warns_and_continues (keys : List String)
    (st : QueueRun) (e : QueueEntry) (h1 : e.name ∈ keys)
    (h2 : mapState e.state = none) :
    update_drafts_entry keys st e =
      { st with warnings := st.warnings ++
          ["unknown state \x27" ++ e.state ++ "\x27 for " ++ e.name] } ∧
    ∀ (pre suf : List QueueEntry) (st0 : QueueRun),
      (pre ++ e :: suf).foldl (update_drafts_entry keys) st0 =
        suf.foldl (update_drafts_entry keys)
          { pre.foldl (update_drafts_entry keys) st0 with
            warnings := (pre.foldl (update_drafts_entry keys) st0).warnings ++
              ["unknown state \x27" ++ e.state ++ "\x27 for " ++ e.name] } := by
  have hmain : ∀ s : QueueRun, update_drafts_entry keys s e =
      { s with warnings := s.warnings ++
          ["unknown state \x27" ++ e.state ++ "\x27 for " ++ e.name] } := by
    intro s
    unfold update_drafts_entry
    rw [if_neg (not_not_intro h1), if_pos (Or.inr h2)]
  refine ⟨hmain st, ?_⟩
  intro pre suf st0
  rw [List.foldl_append, List.foldl_cons, hmain]

/-- Witness for C8 at a concrete input: the entry uses the state code
"BOGUS" for a known document. -/
theorem update_drafts_unknown_state_witness :
    ("draft-a" ∈ ["draft-a"] ∧ mapState "BOGUS" = none) ∧
    update_drafts_entry ["draft-a"] ⟨⟨[exQueueDocA], [], []⟩, [], []⟩ exQueueEntryBogus =
      { db := ⟨[exQueueDocA], [], []⟩, changed := [],
        warnings := ["unknown state \x27BOGUS\x27 for draft-a"] } :=
  ⟨⟨by decide, by decide⟩, by
    rw [(update_drafts_unknown_state_warns_and_continues ["draft-a"]
      ⟨⟨[exQueueDocA], [], []⟩, [], []⟩ exQueueEntryBogus (by decide) (by decide)).1]
    rfl⟩

/- ------------------------------------------------------------------ -/
/- C4                                                                  -/
/- ------------------------------------------------------------------ -/

/-- C4 (counterexample): the claim says tags outside `{ref, iana}` are left
alone and the tag set is only rewritten when the recomputed `{ref, iana}`
subset differs from the document's current `{ref, iana}` subset.  Here the
document carries the tag "errata" and the queue entry carries no
annotation tags, so both `{ref, iana}` subsets are empty and the claim
predicts no rewrite; the code, however, compares the recomputed set
against the document's *full* tag set, clears it and stores the recomputed
set, wiping the "errata" tag. -/
theorem update_drafts_tag_step_wipes_foreign_tags :
    (qdocFind (update_drafts_entry ["draft-a"]
        ⟨⟨[exQueueDocAErrata], [], []⟩, [], []⟩ exQueueEntryA).db.docs "draft-a").map
      (fun d => d.tags) = some [] ∧
    exQueueDocAErrata.tags = ["errata"] := by
  constructor
  · rfl
  · rfl

/-- C4 (amended): the tag-reconciliation step recomputes the tag set from
the queue annotations and compares it against the document's *entire*
current tag set, order-independently; when they differ it clears all tags
and stores exactly the recomputed set (so tags outside `{ref, iana}` are
removed), and when they agree as sets the stored tag list is untouched. -/
theorem update_drafts_tag_step_rewrites_full_set (keys : List String) (st : QueueRun)
    (e : QueueEntry) (d0 : QueueDoc)
    (h0 : qdocFind st.db.docs e.name = some d0) (h1 : e.name ∈ keys)
    (h2 : ¬ e.state = "") (h3 : ¬ mapState e.state = none) :
    ∃ d', qdocFind (update_drafts_entry keys st e).db.docs e.name = some d' ∧
      d'.tags = (if sameSet e.tags.dedup d0.tags then d0.tags else e.tags.dedup) := by
  have hname : d0.name = e.name := qdocFind_name h0
  unfold update_drafts_entry
  rw [if_neg (not_not_intro h1), if_neg (not_or.mpr ⟨h2, h3⟩)]
  simp only [h0, Option.getD_some]
  split_ifs <;>
    exact ⟨_, qdocFind_qdocSet_self _ h0 (by simp [qdocSetState_name, hname]),
      by simp_all [qdocSetState_tags]⟩

/-- Witness for C4 (amended) at a concrete input: document and entry agree
on the (empty) tag set, so the stored list is untouched. -/
theorem update_drafts_tag_step_witness :
    (qdocFind (⟨⟨[exQueueDocA], [], []⟩, [], []⟩ : QueueRun).db.docs "draft-a" =
        some exQueueDocA ∧ "draft-a" ∈ ["draft-a"] ∧
      ¬ ("EDIT" : String) = "" ∧ ¬ mapState "EDIT" = none) ∧
    (∃ d', qdocFind (update_drafts_entry ["draft-a"]
        ⟨⟨[exQueueDocA], [], []⟩, [], []⟩ exQueueEntryA).db.docs "draft-a" = some d' ∧
      d'.tags = (if sameSet exQueueEntryA.tags.dedup exQueueDocA.tags then exQueueDocA.tags
                 else exQueueEntryA.tags.dedup)) :=
  ⟨⟨by decide, by decide, by decide, by decide⟩,
    update_drafts_tag_step_rewrites_full_set ["draft-a"]
      ⟨⟨[exQueueDocA], [], []⟩, [], []⟩ exQueueEntryA exQueueDocA
      (by decide) (by decide) (by decide) (by decide)⟩

/- ------------------------------------------------------------------ -/
/- C5                                                                  -/
/- ------------------------------------------------------------------ -/

/-- C5 (evaluation at the failing input): the queue holds a single,
fully up-to-date entry for `draft-a` (no first-contact event, no state
change, no tag change), while `draft-b` has left the queue and gets its
editorial state unset and its iana tag removed.  The closing loop of
`update_drafts_from_queue` then executes `changed.add(name)` with the
stale loop variable `name` still bound to "draft-a", so the returned
changed set is exactly `{"draft-a"}` — a document for which nothing
happened — and "draft-b", whose state and tags were just cleared, is
absent.  (With an empty `drafts` list the same line raises `NameError`,
modelled by the `none` result.)  This contradicts the claim that the
changed set holds exactly the names with a first-contact event, a state
change or a tag change. -/
theorem update_drafts_changed_set_stale_name :
    update_drafts_from_queue
      ⟨[exQueueDocA,
        ⟨"draft-b", "draft", ["draft-b"], ["iana", "errata"],
          [("draft-rfceditor", "auth")], "00"⟩], [], []⟩
      [exQueueEntryA] =
    some (⟨[exQueueDocA,
        ⟨"draft-b", "draft", ["draft-b"], ["errata"], [], "00"⟩], [], []⟩,
      ["draft-a"], []) := by decide

/- ------------------------------------------------------------------ -/
/- C9                                                                  -/
/- ------------------------------------------------------------------ -/

theorem pyReplaceF_nil (pat : List Char) : ∀ f, pyReplaceF pat f [] = [] := by
  intro f
  cases f <;> rfl

theorem pyReplaceF_congr (pat : List Char) :
    ∀ (f1 : Nat) (s : List Char) (f2 : Nat), s.length ≤ f1 → s.length ≤ f2 →
      pyReplaceF pat f1 s = pyReplaceF pat f2 s := by
  intro f1
  induction f1 with
  | zero =>
      intro s f2 h1 _
      have hnil : s = [] := List.eq_nil_of_length_eq_zero (Nat.le_zero.mp h1)
      subst hnil
      rw [pyReplaceF_nil, pyReplaceF_nil]
  | succ f ih =>
      intro s f2 h1 h2
      match s with
      | [] => rw [pyReplaceF_nil, pyReplaceF_nil]
      | c :: t =>
          match f2 with
          | 0 => simp at h2
          | g + 1 =>
              show (if pat.isPrefixOf (c :: t) ∧ ¬ pat = [] then
                  pyReplaceF pat f ((c :: t).drop pat.length)
                else c :: pyReplaceF pat f t) =
                (if pat.isPrefixOf (c :: t) ∧ ¬ pat = [] then
                  pyReplaceF pat g ((c :: t).drop pat.length)
                else c :: pyReplaceF pat g t)
              split
              · rename_i h
                have hp : 1 ≤ pat.length := by
                  cases pat with
                  | nil => exact absurd rfl h.2
                  | cons a l => simp
                apply ih
                · simp only [List.length_drop, List.length_cons] at *
                  omega
                · simp only [List.length_drop, List.length_cons] at *
                  omega
              · rw [ih t g (by simp only [List.length_cons] at h1; omega)
                  (by simp only [List.length_cons] at h2; omega)]

theorem pyReplace_nil (pat : List Char) : pyReplace pat [] = [] := rfl

theorem pyReplace_cons (pat : List Char) (c : Char) (t : List Char) :
    pyReplace pat (c :: t) =
      if pat.isPrefixOf (c :: t) ∧ ¬ pat = [] then pyReplace pat ((c :: t).drop pat.length)
      else c :: pyReplace pat t := by
  show (if pat.isPrefixOf (c :: t) ∧ ¬ pat = [] then
      pyReplaceF pat t.length ((c :: t).drop pat.length)
    else c :: pyReplaceF pat t.length t) = _
  split
  · rename_i h
    have hp : 1 ≤ pat.length := by
      cases pat with
      | nil => exact absurd rfl h.2
      | cons a l => simp
    apply pyReplaceF_congr
    · simp only [List.length_drop, List.length_cons]
      omega
    · exact le_rfl
  · rfl
theorem pyReplace_pair_cons (a b c d : Char) (t : List Char) :
    pyReplace [a, b] (c :: d :: t) =
      if c = a ∧ d = b then pyReplace [a, b] t else c :: pyReplace [a, b] (d :: t) := by
  rw [pyReplace_cons]
  by_cases h : c = a ∧ d = b
  · rw [if_pos ⟨by simp [List.isPrefixOf, h.1, h.2], by simp⟩, if_pos h]
    rfl
  · rw [if_neg, if_neg h]
    intro hc
    apply h
    have := hc.1
    simp [List.isPrefixOf] at this
    exact ⟨this.1.symm, this.2.symm⟩

theorem pyReplace_pair_one (a b c : Char) : pyReplace [a, b] [c] = [c] := by
  rw [pyReplace_cons, if_neg (by simp [List.isPrefixOf]), pyReplace_nil]

theorem pyReplace_pair_head_ne (a b c : Char) (t : List Char) (hc : ¬ c = a) :
    pyReplace [a, b] (c :: t) = c :: pyReplace [a, b] t := by
  rw [pyReplace_cons, if_neg]
  intro hpre
  have := hpre.1
  cases t with
  | nil => simp [List.isPrefixOf] at this
  | cons d t' =>
      simp [List.isPrefixOf] at this
      exact hc this.1.symm

theorem starsMarked_cons_ne (u v c : Char) (t : List Char) (hc : ¬ c = '*') :
    starsMarked u v (c :: t) = starsMarked u v t := by
  simp [starsMarked, hc]

theorem starsMarked_star_cons (u v c : Char) (t : List Char) :
    starsMarked u v ('*' :: c :: t) =
      ((decide (c = u ∨ c = v)) && starsMarked u v (c :: t)) := by
  simp [starsMarked]

theorem starsMarked_star_nil (u v : Char) : starsMarked u v ['*'] = false := by
  simp [starsMarked]

theorem pyReplace_sublist_aux (pat : List Char) :
    ∀ (n : Nat) (s : List Char), s.length ≤ n → List.Sublist (pyReplace pat s) s := by
  intro n
  induction n with
  | zero =>
      intro s hs
      have : s = [] := List.eq_nil_of_length_eq_zero (Nat.le_zero.mp hs)
      subst this
      simp [pyReplace_nil]
  | succ n ih =>
      intro s hs
      match s with
      | [] => simp [pyReplace_nil]
      | c :: t =>
          rw [pyReplace_cons]
          split
          · rename_i h
            refine (ih _ ?_).trans (List.drop_sublist _ _)
            have h2 : 1 ≤ pat.length := by
              cases pat with
              | nil => exact absurd rfl h.2
              | cons a l => simp
            simp only [List.length_drop, List.length_cons] at *
            omega
          · exact List.Sublist.cons₂ c (ih t (by
              simp only [List.length_cons] at hs
              omega))

theorem pyReplace_sublist (pat s : List Char) : List.Sublist (pyReplace pat s) s :=
  pyReplace_sublist_aux pat s.length s le_rfl

theorem mem_of_mem_pyReplace {pat s : List Char} {c : Char}
    (h : c ∈ pyReplace pat s) : c ∈ s :=
  (pyReplace_sublist pat s).mem h

theorem hasSub_cons (pat : List Char) (c : Char) (t : List Char) :
    hasSub pat (c :: t) = (pat.isPrefixOf (c :: t) || hasSub pat t) := rfl

theorem star_mem_of_hasSub {x : Char} {s : List Char}
    (h : hasSub ['*', x] s = true) : '*' ∈ s := by
  induction s with
  | nil => simp [hasSub] at h
  | cons c t ih =>
      rw [hasSub_cons] at h
      rcases Bool.or_eq_true_iff.mp h with h1 | h2
      · have : c = '*' := by
          cases t with
          | nil => simp [List.isPrefixOf] at h1
          | cons d t' => simp [List.isPrefixOf] at h1; exact h1.1.symm
        simp [this]
      · simp [ih h2]

theorem hasSub_pyReplace_surv (x y : Char) (hx : ¬ x = '*') (hy : ¬ y = '*')
    (hxy : ¬ x = y) :
    ∀ (n : Nat) (s : List Char), s.length ≤ n → hasSub ['*', y] s = true →
      hasSub ['*', y] (pyReplace ['*', x] s) = true := by
  intro n
  induction n with
  | zero =>
      intro s hs h
      have hnil : s = [] := List.eq_nil_of_length_eq_zero (Nat.le_zero.mp hs)
      subst hnil
      simp [hasSub] at h
  | succ n ih =>
      intro s hs h
      match s with
      | [] => simp [hasSub] at h
      | [c] => simp [hasSub_cons, List.isPrefixOf, hasSub] at h
      | c :: d :: t =>
          simp only [List.length_cons] at hs
          rw [pyReplace_pair_cons]
          split
          · rename_i hm
            apply ih t (by omega)
            rw [hasSub_cons] at h
            rcases Bool.or_eq_true_iff.mp h with h1 | h2
            · exfalso
              simp [List.isPrefixOf] at h1
              exact hxy (hm.2.symm.trans h1.2.symm)
            · rw [hasSub_cons] at h2
              rcases Bool.or_eq_true_iff.mp h2 with h3 | h4
              · exfalso
                simp [List.isPrefixOf] at h3
                exact hx (hm.2.symm.trans h3.1.symm)
              · exact h4
          · rename_i hm
            rw [hasSub_cons] at h
            rcases Bool.or_eq_true_iff.mp h with h1 | h2
            · simp [List.isPrefixOf] at h1
              rw [hasSub_cons]
              apply Bool.or_eq_true_iff.mpr
              left
              rw [pyReplace_pair_head_ne '*' x d t
                (fun hh => hy (h1.2.trans hh))]
              simp [List.isPrefixOf, h1.1.symm, h1.2.symm]
            · rw [hasSub_cons]
              apply Bool.or_eq_true_iff.mpr
              right
              exact ih (d :: t) (by simp only [List.length_cons]; omega) h2

theorem starsMarked_strip (u v : Char) (hu : ¬ u = '*') (hv : ¬ v = '*') :
    ∀ (n : Nat) (s : List Char), s.length ≤ n → starsMarked u v s = true →
      starsMarked v v (pyReplace ['*', u] s) = true := by
  intro n
  induction n with
  | zero =>
      intro s hs _
      have hnil : s = [] := List.eq_nil_of_length_eq_zero (Nat.le_zero.mp hs)
      subst hnil
      simp [pyReplace_nil, starsMarked]
  | succ n ih =>
      intro s hs h
      match s with
      | [] => simp [pyReplace_nil, starsMarked]
      | [c] =>
          rw [pyReplace_pair_one]
          by_cases hc : c = '*'
          · subst hc
            rw [starsMarked_star_nil] at h
            cases h
          · rw [starsMarked_cons_ne _ _ _ _ hc]
            simp [starsMarked]
      | c :: d :: t =>
          simp only [List.length_cons] at hs
          by_cases hc : c = '*'
          · subst hc
            rw [starsMarked_star_cons] at h
            obtain ⟨hd, hrest⟩ := Bool.and_eq_true_iff.mp h
            have hd' : d = u ∨ d = v := of_decide_eq_true hd
            rw [pyReplace_pair_cons]
            by_cases hdu : d = u
            · rw [if_pos ⟨rfl, hdu⟩]
              apply ih t (by omega)
              rw [starsMarked_cons_ne u v d t (fun hh => hu (hdu.symm.trans hh))] at hrest
              exact hrest
            · have hdv : d = v := hd'.resolve_left hdu
              have hdstar : ¬ d = '*' := fun hh => hv (hdv.symm.trans hh)
              rw [if_neg (fun hh => hdu hh.2)]
              rw [pyReplace_pair_head_ne '*' u d t hdstar]
              rw [starsMarked_star_cons]
              apply Bool.and_eq_true_iff.mpr
              constructor
              · exact decide_eq_true (Or.inl hdv)
              · rw [starsMarked_cons_ne v v d _ hdstar]
                apply ih t (by omega)
                rw [starsMarked_cons_ne u v d t hdstar] at hrest
                exact hrest
          · rw [pyReplace_pair_head_ne '*' u c _ hc]
            rw [starsMarked_cons_ne v v c _ hc]
            rw [starsMarked_cons_ne u v c _ hc] at h
            exact ih (d :: t) (by simp only [List.length_cons]; omega) h

theorem no_star_strip (v : Char) (hv : ¬ v = '*') :
    ∀ (n : Nat) (s : List Char), s.length ≤ n → starsMarked v v s = true →
      ¬ '*' ∈ pyReplace ['*', v] s := by
  intro n
  induction n with
  | zero =>
      intro s hs _
      have hnil : s = [] := List.eq_nil_of_length_eq_zero (Nat.le_zero.mp hs)
      subst hnil
      simp [pyReplace_nil]
  | succ n ih =>
      intro s hs h
      match s with
      | [] => simp [pyReplace_nil]
      | [c] =>
          rw [pyReplace_pair_one]
          by_cases hc : c = '*'
          · subst hc
            rw [starsMarked_star_nil] at h
            cases h
          · simp only [List.mem_singleton]
            intro hcc
            exact hc hcc.symm
      | c :: d :: t =>
          simp only [List.length_cons] at hs
          by_cases hc : c = '*'
          · subst hc
            rw [starsMarked_star_cons] at h
            obtain ⟨hd, hrest⟩ := Bool.and_eq_true_iff.mp h
            have hdv : d = v := by
              rcases of_decide_eq_true hd with h1 | h1 <;> exact h1
            have hdstar : ¬ d = '*' := fun hh => hv (hdv.symm.trans hh)
            rw [pyReplace_pair_cons, if_pos ⟨rfl, hdv⟩]
            apply ih t (by omega)
            rw [starsMarked_cons_ne v v d t hdstar] at hrest
            exact hrest
          · rw [pyReplace_pair_head_ne '*' v c _ hc]
            rw [starsMarked_cons_ne v v c _ hc] at h
            intro hmem
            rcases List.mem_cons.mp hmem with h1 | h2
            · exact hc h1.symm
            · exact ih (d :: t) (by simp only [List.length_cons]; omega) h h2

theorem pyReplace_comm (u v : Char) (hu : ¬ u = '*') (hv : ¬ v = '*') (huv : ¬ u = v) :
    ∀ (n : Nat) (s : List Char), s.length ≤ n → starsMarked u v s = true →
      pyReplace ['*', v] (pyReplace ['*', u] s) =
        pyReplace ['*', u] (pyReplace ['*', v] s) := by
  intro n
  induction n with
  | zero =>
      intro s hs _
      have hnil : s = [] := List.eq_nil_of_length_eq_zero (Nat.le_zero.mp hs)
      subst hnil
      simp [pyReplace_nil]
  | succ n ih =>
      intro s hs h
      match s with
      | [] => simp [pyReplace_nil]
      | [c] => simp only [pyReplace_pair_one]
      | c :: d :: t =>
          simp only [List.length_cons] at hs
          by_cases hc : c = '*'
          · subst hc
            rw [starsMarked_star_cons] at h
            obtain ⟨hd, hrest⟩ := Bool.and_eq_true_iff.mp h
            have hd' : d = u ∨ d = v := of_decide_eq_true hd
            by_cases hdu : d = u
            · have hdstar : ¬ d = '*' := fun hh => hu (hdu.symm.trans hh)
              have ht : starsMarked u v t = true := by
                rw [starsMarked_cons_ne u v d t hdstar] at hrest
                exact hrest
              rw [pyReplace_pair_cons ('*') u ('*') d t, if_pos ⟨rfl, hdu⟩]
              rw [pyReplace_pair_cons ('*') v ('*') d t,
                if_neg (fun hh => huv (hdu.symm.trans hh.2))]
              rw [pyReplace_pair_head_ne '*' v d t hdstar]
              rw [pyReplace_pair_cons ('*') u ('*') d _, if_pos ⟨rfl, hdu⟩]
              exact ih t (by omega) ht
            · have hdv : d = v := hd'.resolve_left hdu
              have hdstar : ¬ d = '*' := fun hh => hv (hdv.symm.trans hh)
              have ht : starsMarked u v t = true := by
                rw [starsMarked_cons_ne u v d t hdstar] at hrest
                exact hrest
              rw [pyReplace_pair_cons ('*') u ('*') d t, if_neg (fun hh => hdu hh.2)]
              rw [pyReplace_pair_head_ne '*' u d t hdstar]
              rw [pyReplace_pair_cons ('*') v ('*') d _, if_pos ⟨rfl, hdv⟩]
              rw [pyReplace_pair_cons ('*') v ('*') d t, if_pos ⟨rfl, hdv⟩]
              exact ih t (by omega) ht
          · have h' : starsMarked u v (d :: t) = true := by
              rw [starsMarked_cons_ne u v c _ hc] at h
              exact h
            rw [pyReplace_pair_head_ne '*' u c _ hc]
            rw [pyReplace_pair_head_ne '*' v c _ hc]
            rw [pyReplace_pair_head_ne '*' v c _ hc]
            rw [pyReplace_pair_head_ne '*' u c _ hc]
            rw [ih (d :: t) (by simp only [List.length_cons]; omega) h']

theorem hasSub_count (pat s : List Char) (c : Char) (h : hasSub pat s = true) :
    List.count c pat ≤ List.count c s := by
  induction s with
  | nil =>
      simp only [hasSub, List.isEmpty_iff] at h
      subst h
      simp
  | cons a t ih =>
      rw [hasSub_cons] at h
      rcases Bool.or_eq_true_iff.mp h with h1 | h2
      · exact ((List.isPrefixOf_iff_prefix.mp h1).sublist).count_le c
      · refine le_trans (ih h2) ?_
        simp only [List.count_cons]
        omega

theorem count_pyReplace_zero (pat : List Char) (c : Char) (hc : c ∈ pat) :
    ∀ (n : Nat) (s : List Char), s.length ≤ n → hasSub pat s = true →
      List.count c s ≤ 1 → List.count c (pyReplace pat s) = 0 := by
  have hpatne : ¬ pat = [] := by
    intro hh
    subst hh
    simp at hc
  intro n
  induction n with
  | zero =>
      intro s hs h _
      have hnil : s = [] := List.eq_nil_of_length_eq_zero (Nat.le_zero.mp hs)
      subst hnil
      simp only [hasSub, List.isEmpty_iff] at h
      exact absurd h hpatne
  | succ n ih =>
      intro s hs h hcount
      match s with
      | [] =>
          simp only [hasSub, List.isEmpty_iff] at h
          exact absurd h hpatne
      | a :: t =>
          rw [pyReplace_cons]
          split
          · rename_i hm
            obtain ⟨rest, hrest⟩ := List.isPrefixOf_iff_prefix.mp hm.1
            have hdrop : (a :: t).drop pat.length = rest := by
              rw [← hrest]
              exact List.drop_left pat rest
            rw [hdrop]
            have hcnt : List.count c (a :: t) = List.count c pat + List.count c rest := by
              rw [← hrest, List.count_append]
            have h1 : 0 < List.count c pat := List.count_pos_iff.mpr hc
            have h2 : List.count c rest = 0 := by omega
            have h3 := (pyReplace_sublist pat rest).count_le c
            omega
          · rename_i hm
            have hnp : ¬ pat.isPrefixOf (a :: t) = true := fun hh => hm ⟨hh, hpatne⟩
            have ht : hasSub pat t = true := by
              rw [hasSub_cons] at h
              rcases Bool.or_eq_true_iff.mp h with h1 | h2
              · exact absurd h1 hnp
              · exact h2
            have hac : ¬ a = c := by
              intro hh
              subst hh
              have h1 : List.count a pat ≤ List.count a t := hasSub_count pat t a ht
              have h2 : 0 < List.count a pat := List.count_pos_iff.mpr hc
              have h3 : List.count a (a :: t) = List.count a t + 1 := by
                simp [List.count_cons]
              omega
            have hrec : List.count c (pyReplace pat t) = 0 := by
              apply ih t (by simp only [List.length_cons] at hs; omega) ht
              have : List.count c (a :: t) = List.count c t := by
                simp [List.count_cons, hac]
              omega
            simp [List.count_cons, hac, hrec]

theorem digitRun_front (t : List Char) : List.IsPrefix (digitRun t) t := by
  induction t with
  | nil => simp [digitRun]
  | cons c t ih =>
      rw [digitRun]
      split
      · obtain ⟨r, hr⟩ := ih
        exact ⟨r, by rw [List.cons_append, hr]⟩
      · exact List.nil_prefix

theorem gMatchHere_front {s ds : List Char} (h : gMatchHere s = some ds) :
    ('(' :: (ds ++ ['G', ')'])).isPrefixOf s = true := by
  match s with
  | [] => simp [gMatchHere] at h
  | c :: rest =>
      rw [gMatchHere] at h
      by_cases hc : c = '('
      · rw [if_pos hc] at h
        subst hc
        by_cases hcond : ¬ digitRun rest = [] ∧
            ((rest.drop (digitRun rest).length).take 2 = ['G', ')'])
        · rw [if_pos hcond] at h
          have hds : digitRun rest = ds := by injection h
          rw [hds] at hcond
          have htk : rest.take ds.length = ds := by
            rw [← hds]
            exact (List.prefix_iff_eq_take.mp (digitRun_front rest)).symm
          have hsplit : rest = ds ++ rest.drop ds.length := by
            conv_lhs => rw [← List.take_append_drop ds.length rest]
            rw [htk]
          obtain ⟨g, p, r', hrr⟩ : ∃ g p r', rest.drop ds.length = g :: p :: r' := by
            cases hrw : rest.drop ds.length with
            | nil =>
                rw [hrw] at hcond
                simp at hcond
            | cons g rr =>
                cases rr with
                | nil =>
                    rw [hrw] at hcond
                    simp at hcond
                | cons p r' => exact ⟨g, p, r', rfl⟩
          have hgp : g = 'G' ∧ p = ')' := by
            have := hcond.2
            rw [hrr] at this
            simp [List.take] at this
            exact this
          apply List.isPrefixOf_iff_prefix.mpr
          refine ⟨r', ?_⟩
          rw [hrr] at hsplit
          rw [hsplit, hgp.1, hgp.2]
          simp
        · rw [if_neg hcond] at h
          cases h
      · rw [if_neg hc] at h
        cases h

theorem gSearch_hasSub {l ds : List Char} (h : gSearch l = some ds) :
    hasSub ('(' :: (ds ++ ['G', ')'])) l = true := by
  induction l with
  | nil => simp [gSearch] at h
  | cons c t ih =>
      rw [gSearch] at h
      cases hm : gMatchHere (c :: t) with
      | some ds' =>
          rw [hm] at h
          have hds : ds' = ds := by injection h
          subst hds
          rw [hasSub_cons]
          apply Bool.or_eq_true_iff.mpr
          left
          exact gMatchHere_front hm
      | none =>
          rw [hm] at h
          rw [hasSub_cons]
          apply Bool.or_eq_true_iff.mpr
          right
          exact ih h

theorem gSearch_none_of_no_paren {l : List Char} (h : ¬ '(' ∈ l) : gSearch l = none := by
  induction l with
  | nil => rfl
  | cons c t ih =>
      rw [gSearch]
      have hc : ¬ c = '(' := fun hh => h (by simp [hh])
      have hm : gMatchHere (c :: t) = none := by
        rw [gMatchHere, if_neg hc]
      rw [hm]
      exact ih (fun hh => h (List.mem_cons_of_mem c hh))

/-- C9 (amended): for a queue state string in which every `*` is
immediately followed by `R` or `A` (markers well formed and
non-overlapping) and which holds at most one `(` character, and which
contains both the `*R` and `*A` markers, the annotation decoding of
`parse_queue` yields the tag list `["ref", "iana"]` and a state string
containing neither marker and no generation-marker match, and the state
string does not depend on the order in which the two markers are
stripped.  Without the well-formedness proviso all of this can fail (see
the counterexample). -/
theorem parse_queue_state_amended (s : List Char)
    (hok : starsOk s = true) (hpar : List.count '(' s ≤ 1)
    (hR : hasSub ['*', 'R'] s = true) (hA : hasSub ['*', 'A'] s = true) :
    (parse_queue_state s).2.1 = ["ref", "iana"] ∧
    hasSub ['*', 'R'] (parse_queue_state s).1 = false ∧
    hasSub ['*', 'A'] (parse_queue_state s).1 = false ∧
    gSearch (parse_queue_state s).1 = none ∧
    (parse_queue_state s).1 = (parse_queue_state_swapped s).1 := by
  have hA1 : hasSub ['*', 'A'] (pyReplace ['*', 'R'] s) = true :=
    hasSub_pyReplace_surv 'R' 'A' (by decide) (by decide) (by decide) s.length s le_rfl hA
  have hR1 : hasSub ['*', 'R'] (pyReplace ['*', 'A'] s) = true :=
    hasSub_pyReplace_surv 'A' 'R' (by decide) (by decide) (by decide) s.length s le_rfl hR
  have hcomm : pyReplace ['*', 'A'] (pyReplace ['*', 'R'] s) =
      pyReplace ['*', 'R'] (pyReplace ['*', 'A'] s) :=
    pyReplace_comm 'R' 'A' (by decide) (by decide) (by decide) s.length s le_rfl hok
  have hstars1 : starsMarked 'A' 'A' (pyReplace ['*', 'R'] s) = true :=
    starsMarked_strip 'R' 'A' (by decide) (by decide) s.length s le_rfl hok
  have hnostar : ¬ '*' ∈ pyReplace ['*', 'A'] (pyReplace ['*', 'R'] s) :=
    no_star_strip 'A' (by decide) (pyReplace ['*', 'R'] s).length _ le_rfl hstars1
  have hsub2 : List.Sublist (pyReplace ['*', 'A'] (pyReplace ['*', 'R'] s)) s :=
    (pyReplace_sublist _ _).trans (pyReplace_sublist _ _)
  have hcount2 : List.count '(' (pyReplace ['*', 'A'] (pyReplace ['*', 'R'] s)) ≤ 1 :=
    le_trans (hsub2.count_le '(') hpar
  have hunf : parse_queue_state s =
      (match gSearch (pyReplace ['*', 'A'] (pyReplace ['*', 'R'] s)) with
       | some ds => (pyReplace ('(' :: ds ++ ['G', ')'])
           (pyReplace ['*', 'A'] (pyReplace ['*', 'R'] s)), ["ref", "iana"], ds)
       | none => (pyReplace ['*', 'A'] (pyReplace ['*', 'R'] s), ["ref", "iana"], [])) := by
    unfold parse_queue_state
    simp only [hR, hA1, if_true, List.singleton_append]
  have hunfsw : parse_queue_state_swapped s =
      (match gSearch (pyReplace ['*', 'A'] (pyReplace ['*', 'R'] s)) with
       | some ds => (pyReplace ('(' :: ds ++ ['G', ')'])
           (pyReplace ['*', 'A'] (pyReplace ['*', 'R'] s)), ds)
       | none => (pyReplace ['*', 'A'] (pyReplace ['*', 'R'] s), [])) := by
    unfold parse_queue_state_swapped
    simp only [hA, hR1, if_true]
    rw [← hcomm]
  cases hg : gSearch (pyReplace ['*', 'A'] (pyReplace ['*', 'R'] s)) with
  | none =>
      rw [hunf, hunfsw, hg]
      refine ⟨rfl, ?_, ?_, hg, rfl⟩
      · exact Bool.eq_false_iff.mpr (fun hh => hnostar (star_mem_of_hasSub hh))
      · exact Bool.eq_false_iff.mpr (fun hh => hnostar (star_mem_of_hasSub hh))
  | some ds =>
      rw [hunf, hunfsw, hg]
      have hnostar2 : ¬ '*' ∈ pyReplace ('(' :: ds ++ ['G', ')'])
          (pyReplace ['*', 'A'] (pyReplace ['*', 'R'] s)) :=
        fun hh => hnostar (mem_of_mem_pyReplace hh)
      have hcnt0 : List.count '(' (pyReplace ('(' :: ds ++ ['G', ')'])
          (pyReplace ['*', 'A'] (pyReplace ['*', 'R'] s))) = 0 := by
        apply count_pyReplace_zero _ '(' (List.mem_cons_self _ _) _ _ le_rfl ?_ hcount2
        exact gSearch_hasSub hg
      refine ⟨rfl, ?_, ?_, ?_, rfl⟩
      · exact Bool.eq_false_iff.mpr (fun hh => hnostar2 (star_mem_of_hasSub hh))
      · exact Bool.eq_false_iff.mpr (fun hh => hnostar2 (star_mem_of_hasSub hh))
      · exact gSearch_none_of_no_paren (List.count_eq_zero.mp hcnt0)

/-- C9 (counterexample): the claim as stated fails on adversarial state
strings, because `str.replace` removes *all* occurrences in one pass and
a removal can splice a new marker together.  `"**RR*A"` contains both
markers, yet the decoded state still contains `*R`; and for `"*A**RA"`
the final state string depends on the order in which the two markers are
stripped (`""` in code order, `"*A"` in the swapped order). -/
theorem parse_queue_state_counterexample :
    (hasSub ['*', 'R'] "**RR*A".toList = true ∧ hasSub ['*', 'A'] "**RR*A".toList = true ∧
      (parse_queue_state "**RR*A".toList).1 = ['*', 'R']) ∧
    (hasSub ['*', 'R'] "*A**RA".toList = true ∧ hasSub ['*', 'A'] "*A**RA".toList = true ∧
      ¬ (parse_queue_state "*A**RA".toList).1 = (parse_queue_state_swapped "*A**RA".toList).1) := by
  decide

/-- Witness for C9 (amended) at the concrete queue state "EDIT*R*A(1G)". -/
theorem parse_queue_state_amended_witness :
    (starsOk "EDIT*R*A(1G)".toList = true ∧
      List.count '(' "EDIT*R*A(1G)".toList ≤ 1 ∧
      hasSub ['*', 'R'] "EDIT*R*A(1G)".toList = true ∧
      hasSub ['*', 'A'] "EDIT*R*A(1G)".toList = true) ∧
    ((parse_queue_state "EDIT*R*A(1G)".toList).2.1 = ["ref", "iana"] ∧
      hasSub ['*', 'R'] (parse_queue_state "EDIT*R*A(1G)".toList).1 = false ∧
      hasSub ['*', 'A'] (parse_queue_state "EDIT*R*A(1G)".toList).1 = false ∧
      gSearch (parse_queue_state "EDIT*R*A(1G)".toList).1 = none ∧
      (parse_queue_state "EDIT*R*A(1G)".toList).1 =
        (parse_queue_state_swapped "EDIT*R*A(1G)".toList).1) :=
  ⟨⟨by decide, by decide, by decide, by decide⟩,
    parse_queue_state_amended "EDIT*R*A(1G)".toList
      (by decide) (by decide) (by decide) (by decide)⟩

/- ------------------------------------------------------------------ -/
/- C7                                                                  -/
/- ------------------------------------------------------------------ -/

theorem isLeap_iff (y : Nat) :
    isLeap y = true ↔ ((y % 4 = 0 ∧ ¬ y % 100 = 0) ∨ y % 400 = 0) := by
  simp [isLeap]

set_option maxHeartbeats 2000000 in
theorem dBY_succ (y : Nat) (hy : 1 ≤ y) :
    daysBeforeYear (y + 1) = daysBeforeYear y + 365 + (if isLeap y then 1 else 0) := by
  unfold daysBeforeYear
  simp only [Nat.add_sub_cancel]
  by_cases h : isLeap y
  · rw [if_pos h]
    rw [isLeap_iff] at h
    omega
  · rw [if_neg h]
    rw [Bool.not_eq_true, ← Bool.not_eq_true, isLeap_iff] at h
    push_neg at h
    omega

theorem dBY_le (a b : Nat) (ha : 1 ≤ a) (hab : a ≤ b) :
    daysBeforeYear a ≤ daysBeforeYear b := by
  induction b, hab using Nat.le_induction with
  | base => exact le_rfl
  | succ n hn ih =>
      calc daysBeforeYear a ≤ daysBeforeYear n := ih
        _ ≤ daysBeforeYear n + 365 + (if isLeap n then 1 else 0) := by split <;> omega
        _ = daysBeforeYear (n + 1) := (dBY_succ n (by omega)).symm

theorem daysInMonth_pos (y m : Nat) : 1 ≤ daysInMonth y m := by
  unfold daysInMonth
  split_ifs <;> omega

theorem dBM_bound (y m d : Nat) (hm1 : 1 ≤ m) (hm2 : m ≤ 12) (hd1 : 1 ≤ d)
    (hd2 : d ≤ daysInMonth y m) :
    daysBeforeMonth y m + (d - 1) ≤ 364 + (if isLeap y then 1 else 0) := by
  by_cases h : isLeap y <;>
    (interval_cases m <;> simp_all [daysBeforeMonth, daysInMonth] <;> omega)

theorem dBM_step (y m : Nat) (hm1 : 1 ≤ m) (hm2 : m ≤ 11) :
    daysBeforeMonth y (m + 1) = daysBeforeMonth y m + daysInMonth y m := by
  by_cases h : isLeap y <;>
    (interval_cases m <;> simp_all [daysBeforeMonth, daysInMonth])

theorem dBM_lt (y m1 d1 m2 : Nat) (h1 : 1 ≤ m1) (hlt : m1 < m2) (h2 : m2 ≤ 12)
    (hd : d1 ≤ daysInMonth y m1) :
    daysBeforeMonth y m1 + (d1 - 1) < daysBeforeMonth y m2 := by
  have h12 : m1 ≤ 11 := by omega
  by_cases h : isLeap y <;>
    (interval_cases m1 <;> interval_cases m2 <;>
      simp_all [daysBeforeMonth, daysInMonth] <;> omega)

theorem rataDie_nextDay (x : CalDate) (hx : ValidDate x) :
    rataDie (nextDay x) = rataDie x + 1 := by
  obtain ⟨hy, hm1, hm2, hd1, hd2⟩ := hx
  unfold nextDay
  split
  · rename_i h
    unfold rataDie
    simp only
    omega
  · split
    · rename_i hnd hm
      unfold rataDie
      simp only
      rw [dBM_step x.year x.month hm1 (by omega)]
      omega
    · rename_i hnd hm12
      have hm : x.month = 12 := by omega
      have hdim : daysInMonth x.year x.month = 31 := by
        rw [hm]
        simp [daysInMonth]
      have hde : x.day = 31 := by omega
      unfold rataDie
      simp only
      have h1 : daysBeforeMonth x.year 12 = 334 + (if isLeap x.year then 1 else 0) := by
        simp [daysBeforeMonth]
      have h2 : daysBeforeMonth (x.year + 1) 1 = 0 := by
        simp [daysBeforeMonth]
      rw [hm, hde, h1, h2, dBY_succ x.year hy]
      by_cases hL : isLeap x.year <;> simp [hL]

theorem nextDay_valid (x : CalDate) (hx : ValidDate x) : ValidDate (nextDay x) := by
  obtain ⟨hy, hm1, hm2, hd1, hd2⟩ := hx
  unfold nextDay
  split
  · rename_i h
    refine ⟨hy, hm1, hm2, ?_, ?_⟩ <;> dsimp only <;> omega
  · split
    · rename_i hnd hm
      refine ⟨hy, ?_, ?_, ?_, ?_⟩ <;> dsimp only
      · omega
      · omega
      · omega
      · exact daysInMonth_pos x.year (x.month + 1)
    · refine ⟨?_, ?_, ?_, ?_, ?_⟩ <;> dsimp only
      · omega
      · omega
      · omega
      · omega
      · have := daysInMonth_pos (x.year + 1) 1
        omega

theorem prevDay_nextDay (x : CalDate) (hx : ValidDate x) : prevDay (nextDay x) = x := by
  obtain ⟨hy, hm1, hm2, hd1, hd2⟩ := hx
  unfold nextDay prevDay
  split
  · rename_i h
    dsimp only
    rw [if_pos (by omega)]
    simp only [Nat.add_sub_cancel]
  · split
    · rename_i hnd hm
      dsimp only
      rw [if_neg (by omega), if_pos (by omega)]
      simp only [Nat.add_sub_cancel]
      have hde : x.day = daysInMonth x.year x.month := by omega
      rw [← hde]
    · rename_i hnd hm
      dsimp only
      rw [if_neg (by omega), if_neg (by omega)]
      simp only [Nat.add_sub_cancel]
      have hm12 : x.month = 12 := by omega
      have hdim : daysInMonth x.year x.month = 31 := by
        rw [hm12]
        simp [daysInMonth]
      have hd31 : x.day = 31 := by omega
      cases x
      simp_all

theorem iterate_nextDay_valid (k : Nat) (x : CalDate) (hx : ValidDate x) :
    ValidDate (nextDay^[k] x) := by
  induction k with
  | zero => simpa using hx
  | succ n ih =>
      rw [Function.iterate_succ_apply']
      exact nextDay_valid _ ih

theorem rataDie_lt_of_dateLt (x z : CalDate) (hx : ValidDate x) (hz : ValidDate z)
    (h : dateLt x z = true) : rataDie x < rataDie z := by
  obtain ⟨hy, hm1, hm2, hd1, hd2⟩ := hx
  obtain ⟨hy', hm1', hm2', hd1', hd2'⟩ := hz
  unfold dateLt at h
  simp only [decide_eq_true_eq, Bool.or_eq_true, Bool.and_eq_true] at h
  rcases h with hlt | ⟨hye, h⟩
  · unfold rataDie
    have hb := dBM_bound x.year x.month x.day hm1 hm2 hd1 hd2
    have hs := dBY_succ x.year hy
    have hle := dBY_le (x.year + 1) z.year (by omega) (by omega)
    by_cases hL : isLeap x.year <;> simp [hL] at hb hs <;> omega
  · rcases h with hmlt | ⟨hme, hdlt⟩
    · unfold rataDie
      have := dBM_lt x.year x.month x.day z.month hm1 hmlt hm2' hd2
      rw [hye] at this ⊢
      omega
    · unfold rataDie
      rw [hye, hme]
      omega

theorem rataDie_inj (x z : CalDate) (hx : ValidDate x) (hz : ValidDate z)
    (h : rataDie x = rataDie z) : x = z := by
  by_cases h1 : dateLt x z = true
  · exact absurd (rataDie_lt_of_dateLt x z hx hz h1) (by omega)
  · by_cases h2 : dateLt z x = true
    · exact absurd (rataDie_lt_of_dateLt z x hz hx h2) (by omega)
    · unfold dateLt at h1 h2
      simp only [decide_eq_true_eq, Bool.or_eq_true, Bool.and_eq_true,
        not_or, not_and, Bool.not_eq_true] at h1 h2
      cases x
      cases z
      simp only [CalDate.mk.injEq]
      dsimp only at h1 h2
      omega

theorem reach_nextDay (k : Nat) : ∀ x z : CalDate, ValidDate x → ValidDate z →
    rataDie z = rataDie x + k → nextDay^[k] x = z := by
  induction k with
  | zero =>
      intro x z hx hz h
      simp only [Function.iterate_zero, id]
      exact rataDie_inj x z hx hz (by omega)
  | succ k ih =>
      intro x z hx hz h
      rw [Function.iterate_succ_apply]
      exact ih (nextDay x) z (nextDay_valid x hx) hz
        (by rw [rataDie_nextDay x hx]; omega)

theorem dayWalk_same (target : CalDate) (up : Bool) (fuel : Nat) (x : CalDate)
    (h1 : x.month = target.month) (h2 : x.year = target.year) :
    dayWalk target up fuel x = some x := by
  cases fuel <;> simp [dayWalk, h1, h2]

theorem dayWalk_up (d : CalDate) : ∀ (k fuel : Nat) (x : CalDate), k ≤ fuel →
    ValidDate x → nextDay^[k] x = d →
    ∃ r, dayWalk d true fuel x = some r ∧ r.month = d.month ∧ r.year = d.year := by
  intro k
  induction k with
  | zero =>
      intro fuel x _ _ h
      simp only [Function.iterate_zero, id] at h
      subst h
      exact ⟨x, dayWalk_same x true fuel x rfl rfl, rfl, rfl⟩
  | succ k ih =>
      intro fuel x hkf hx h
      by_cases hsm : x.month = d.month ∧ x.year = d.year
      · exact ⟨x, dayWalk_same d true fuel x hsm.1 hsm.2, hsm.1, hsm.2⟩
      · match fuel with
        | 0 => omega
        | f + 1 =>
            rw [dayWalk, if_neg hsm]
            simp only [if_true]
            exact ih f (nextDay x) (by omega) (nextDay_valid x hx)
              (by rw [← Function.iterate_succ_apply]; exact h)

theorem dayWalk_down (d : CalDate) (hd : ValidDate d) : ∀ (k fuel : Nat) (x : CalDate),
    k ≤ fuel → nextDay^[k] d = x →
    ∃ r, dayWalk d false fuel x = some r ∧ r.month = d.month ∧ r.year = d.year := by
  intro k
  induction k with
  | zero =>
      intro fuel x _ h
      simp only [Function.iterate_zero, id] at h
      subst h
      exact ⟨d, dayWalk_same d false fuel d rfl rfl, rfl, rfl⟩
  | succ k ih =>
      intro fuel x hkf h
      by_cases hsm : x.month = d.month ∧ x.year = d.year
      · exact ⟨x, dayWalk_same d false fuel x hsm.1 hsm.2, hsm.1, hsm.2⟩
      · match fuel with
        | 0 => omega
        | f + 1 =>
            rw [dayWalk, if_neg hsm]
            simp only [Bool.false_eq_true, if_false]
            have hprev : prevDay x = nextDay^[k] d := by
              rw [← h, Function.iterate_succ_apply']
              exact prevDay_nextDay _ (iterate_nextDay_valid k d hd)
            exact ih f (prevDay x) (by omega) hprev.symm

/-- C7: for a candidate publication timestamp `d` (day 1 of the feed's
month and year) and a current time `now` at most 60 days away, the
day-by-day walk of the publication-event synthesis terminates within 61
one-day steps (fuel 61 suffices, hence at most about 62 loop evaluations)
and produces a timestamp whose month and year equal the candidate's; in
particular `synthesized_time` is a total function of the feed date and the
current time, and its `.getD` fallback is never exercised. -/
theorem synthesized_time_terminates (d now : CalDate) (hd : ValidDate d)
    (hn : ValidDate now) (_hday : d.day = 1)
    (hdist : ((rataDie d : Int) - rataDie now).natAbs ≤ 60) :
    ∃ r, dayWalk d (decide (0 ≤ (rataDie d : Int) - rataDie now)) 61 now = some r ∧
      r.month = d.month ∧ r.year = d.year ∧ synthesized_time d now = r := by
  have hbr : ¬ ((rataDie d : Int) - rataDie now).natAbs > 60 := by omega
  rcases Int.le_or_lt 0 ((rataDie d : Int) - rataDie now) with hpos | hneg
  · have hdec : decide (0 ≤ (rataDie d : Int) - rataDie now) = true := decide_eq_true hpos
    have hle : rataDie now ≤ rataDie d := by omega
    have hreach : nextDay^[rataDie d - rataDie now] now = d :=
      reach_nextDay (rataDie d - rataDie now) now d hn hd (by omega)
    obtain ⟨r, hw, hm, hy⟩ :=
      dayWalk_up d (rataDie d - rataDie now) 61 now (by omega) hn hreach
    refine ⟨r, by rw [hdec]; exact hw, hm, hy, ?_⟩
    unfold synthesized_time
    rw [if_neg hbr, hdec, hw]
    rfl
  · have hdec : decide (0 ≤ (rataDie d : Int) - rataDie now) = false := by
      simp only [decide_eq_false_iff_not]
      omega
    have hlt : rataDie d ≤ rataDie now := by omega
    have hreach : nextDay^[rataDie now - rataDie d] d = now :=
      reach_nextDay (rataDie now - rataDie d) d now hd hn (by omega)
    obtain ⟨r, hw, hm, hy⟩ :=
      dayWalk_down d hd (rataDie now - rataDie d) 61 now (by omega) hreach
    refine ⟨r, by rw [hdec]; exact hw, hm, hy, ?_⟩
    unfold synthesized_time
    rw [if_neg hbr, hdec, hw]
    rfl

/-- Witness for C7 at concrete dates: candidate March 1, 2024 and current
time February 15, 2024. -/
theorem synthesized_time_terminates_witness :
    (ValidDate ⟨2024, 3, 1⟩ ∧ ValidDate ⟨2024, 2, 15⟩ ∧
      (⟨2024, 3, 1⟩ : CalDate).day = 1 ∧
      ((rataDie ⟨2024, 3, 1⟩ : Int) - rataDie ⟨2024, 2, 15⟩).natAbs ≤ 60) ∧
    (∃ r, dayWalk ⟨2024, 3, 1⟩
        (decide (0 ≤ (rataDie ⟨2024, 3, 1⟩ : Int) - rataDie ⟨2024, 2, 15⟩)) 61
        ⟨2024, 2, 15⟩ = some r ∧
      r.month = (⟨2024, 3, 1⟩ : CalDate).month ∧ r.year = (⟨2024, 3, 1⟩ : CalDate).year ∧
      synthesized_time ⟨2024, 3, 1⟩ ⟨2024, 2, 15⟩ = r) :=
  ⟨⟨by decide, by decide, by decide, by decide⟩,
    synthesized_time_terminates ⟨2024, 3, 1⟩ ⟨2024, 2, 15⟩
      (by decide) (by decide) (by decide) (by decide)⟩

/- ------------------------------------------------------------------ -/
/- C6                                                                  -/
/- ------------------------------------------------------------------ -/

theorem countTriple_nil (t : String × String × String) : countTriple [] t = 0 := rfl

theorem countTriple_append (l1 l2 : List (String × String × String))
    (t : String × String × String) :
    countTriple (l1 ++ l2) t = countTriple l1 t + countTriple l2 t := by
  unfold countTriple
  exact List.countP_append _ _ _

theorem countTriple_eq_zero {l : List (String × String × String)}
    {t : String × String × String} (h : ¬ t ∈ l) : countTriple l t = 0 := by
  unfold countTriple
  apply List.countP_eq_zero.mpr
  intro a ha
  simp only [decide_eq_true_eq]
  intro hat
  exact h (hat ▸ ha)

theorem countTriple_le_one_of_nodup {l : List (String × String × String)}
    (h : l.Nodup) (t : String × String × String) : countTriple l t ≤ 1 := by
  induction l with
  | nil => simp [countTriple_nil]
  | cons a l ih =>
      obtain ⟨ha, hl⟩ := List.nodup_cons.mp h
      unfold countTriple
      rw [List.countP_cons]
      by_cases hat : a = t
      · subst hat
        have : countTriple l a = 0 := countTriple_eq_zero ha
        unfold countTriple at this
        simp [this]
      · simp only [decide_eq_true_eq, hat]
        simpa [countTriple] using ih hl

theorem addRels_frame (src kind kn : String) : ∀ (ts : List String) (db : IndexDb),
    (addRels db src kind kn ts).1.aliases = db.aliases ∧
    (addRels db src kind kn ts).1.docs = db.docs ∧
    (addRels db src kind kn ts).1.events = db.events := by
  intro ts
  induction ts with
  | nil => intro db; exact ⟨rfl, rfl, rfl⟩
  | cons x ts ih =>
      intro db
      unfold addRels
      split
      · exact ih db
      · exact ih { db with rels := db.rels ++ [(src, x, kind)] }

theorem addRels_new (src kind kn : String) : ∀ (ts : List String) (db : IndexDb),
    ∃ new, (addRels db src kind kn ts).1.rels = db.rels ++ new ∧
      (∀ r ∈ new, ¬ r ∈ db.rels) ∧ new.Nodup ∧
      (∀ x ∈ ts, (src, x, kind) ∈ db.rels ++ new) := by
  intro ts
  induction ts with
  | nil =>
      intro db
      exact ⟨[], by simp [addRels], by simp, by simp, by simp⟩
  | cons x ts ih =>
      intro db
      unfold addRels
      split
      · rename_i hany
        obtain ⟨r, hr, hrp⟩ := List.any_eq_true.mp hany
        simp only [decide_eq_true_eq] at hrp
        have hxin : (src, x, kind) ∈ db.rels := by
          have hre : r = (src, x, kind) := by
            obtain ⟨a, b, c⟩ := r
            simp only at hrp
            simp [hrp.1, hrp.2.1, hrp.2.2]
          rw [← hre]
          exact hr
        obtain ⟨new, h1, h2, h3, h4⟩ := ih db
        exact ⟨new, h1, h2, h3, by
          intro z hz
          rcases List.mem_cons.mp hz with hz | hz
          · subst hz
            exact List.mem_append_left _ hxin
          · exact h4 z hz⟩
      · rename_i hany
        have hxout : ¬ (src, x, kind) ∈ db.rels := by
          intro hmem
          apply hany
          apply List.any_eq_true.mpr
          exact ⟨(src, x, kind), hmem, by simp⟩
        obtain ⟨new, h1, h2, h3, h4⟩ := ih { db with rels := db.rels ++ [(src, x, kind)] }
        refine ⟨(src, x, kind) :: new, ?_, ?_, ?_, ?_⟩
        · simp only at h1
          rw [h1]
          simp
        · intro z hz
          rcases List.mem_cons.mp hz with hz | hz
          · subst hz
            exact hxout
          · intro hzin
            exact h2 z hz (by simp [hzin])
        · refine List.nodup_cons.mpr ⟨?_, h3⟩
          intro hin
          exact h2 _ hin (by simp)
        · intro z hz
          rcases List.mem_cons.mp hz with hz | hz
          · subst hz
            simp
          · have := h4 z hz
            simp only [List.append_assoc] at this ⊢
            simpa using this

theorem addRels_noop (src kind kn : String) : ∀ (ts : List String) (db : IndexDb),
    (∀ x ∈ ts, (src, x, kind) ∈ db.rels) →
    addRels db src kind kn ts = (db, []) := by
  intro ts
  induction ts with
  | nil => intro db _; rfl
  | cons x ts ih =>
      intro db h
      unfold addRels
      rw [if_pos]
      · exact ih db (fun z hz => h z (List.mem_cons_of_mem x hz))
      · apply List.any_eq_true.mpr
        exact ⟨(src, x, kind), h x (List.mem_cons_self x ts), by simp⟩

/-- C6: the relationship-creation loop of `update_docs_from_rfc_index`
creates an edge only when no edge with that exact (source, target, kind)
triple exists, never modifies or deletes an existing edge (the stored
relation list is extended, and only by triples that were absent), keeps
the at-most-one-edge-per-triple invariant, and re-requesting the same
targets immediately afterwards creates nothing and logs nothing. -/
theorem addRels_at_most_one_edge (db : IndexDb) (src kind kindName : String)
    (targets : List String)
    (hinv : ∀ t : String × String × String, countTriple db.rels t ≤ 1) :
    (∃ new, (addRels db src kind kindName targets).1.rels = db.rels ++ new ∧
      ∀ r ∈ new, ¬ r ∈ db.rels) ∧
    (∀ t : String × String × String,
      countTriple (addRels db src kind kindName targets).1.rels t ≤ 1) ∧
    addRels (addRels db src kind kindName targets).1 src kind kindName targets =
      ((addRels db src kind kindName targets).1, []) := by
  obtain ⟨new, h1, h2, h3, h4⟩ := addRels_new src kind kindName targets db
  refine ⟨⟨new, h1, h2⟩, ?_, ?_⟩
  · intro t
    rw [h1, countTriple_append]
    by_cases ht : t ∈ new
    · have hc1 : countTriple new t ≤ 1 := countTriple_le_one_of_nodup h3 t
      have hc0 : countTriple db.rels t = 0 := countTriple_eq_zero (h2 t ht)
      omega
    · have hc0 : countTriple new t = 0 := countTriple_eq_zero ht
      have := hinv t
      omega
  · apply addRels_noop
    intro x hx
    rw [h1]
    exact h4 x hx

/-- Witness for C6 at a concrete input: an empty relation table and an
obsoletes request with a repeated target. -/
theorem addRels_at_most_one_edge_witness :
    (∀ t : String × String × String,
      countTriple (⟨[], [], [], []⟩ : IndexDb).rels t ≤ 1) ∧
    ((∃ new, (addRels ⟨[], [], [], []⟩ "rfc10" "obs" "obsoletes"
        ["rfc5", "rfc5"]).1.rels = (⟨[], [], [], []⟩ : IndexDb).rels ++ new ∧
      ∀ r ∈ new, ¬ r ∈ (⟨[], [], [], []⟩ : IndexDb).rels) ∧
    (∀ t : String × String × String,
      countTriple (addRels ⟨[], [], [], []⟩ "rfc10" "obs" "obsoletes"
        ["rfc5", "rfc5"]).1.rels t ≤ 1) ∧
    addRels (addRels ⟨[], [], [], []⟩ "rfc10" "obs" "obsoletes" ["rfc5", "rfc5"]).1
        "rfc10" "obs" "obsoletes" ["rfc5", "rfc5"] =
      ((addRels ⟨[], [], [], []⟩ "rfc10" "obs" "obsoletes" ["rfc5", "rfc5"]).1, [])) :=
  ⟨fun t => by simp [countTriple],
    addRels_at_most_one_edge ⟨[], [], [], []⟩ "rfc10" "obs" "obsoletes" ["rfc5", "rfc5"]
      (fun t => by simp [countTriple])⟩

/- ------------------------------------------------------------------ -/
/- Document-row lemmas for the index reconciler                        -/
/- ------------------------------------------------------------------ -/

theorem docFind_name {docs : List IndexDoc} {n : String} {d : IndexDoc}
    (h : docFind docs n = some d) : d.name = n := by
  have := List.find?_some h
  simpa using this

theorem docFind_docSet_self {docs : List IndexDoc} {n : String} {d0 : IndexDoc}
    (d : IndexDoc) (h : docFind docs n = some d0) (hd : d.name = n) :
    docFind (docSet docs d) n = some d := by
  induction docs with
  | nil => simp [docFind] at h
  | cons x xs ih =>
      by_cases hx : x.name = n
      · have hxd : x.name = d.name := hx.trans hd.symm
        simp only [docFind, docSet, List.map_cons, if_pos hxd]
        exact List.find?_cons_of_pos _ (by simp [hd])
      · simp only [docFind] at h
        rw [List.find?_cons_of_neg _ (by simpa using hx)] at h
        simp only [docFind, docSet, List.map_cons]
        rw [if_neg (fun hc => hx (hc.trans hd)), List.find?_cons_of_neg _ (by simpa using hx)]
        exact ih h

theorem docSetState_scalars_tags (d : IndexDoc) (t slug : String) :
    docScalars (docSetState d t slug) = docScalars d ∧
      (docSetState d t slug).tags = d.tags := by
  unfold docSetState; split <;> exact ⟨rfl, rfl⟩

theorem findSet_self (l : List (String × String)) (t slug : String)
    (h : l.any (fun p => p.1 = t) = true) :
    (l.map (fun p => if p.1 = t then (t, slug) else p)).find?
      (fun p => p.1 = t) = some (t, slug) := by
  induction l with
  | nil => simp at h
  | cons x xs ih =>
      by_cases hx : x.1 = t
      · simp only [List.map_cons, if_pos hx]
        exact List.find?_cons_of_pos _ (by simp)
      · simp only [List.map_cons, if_neg hx]
        rw [List.find?_cons_of_neg _ (by simpa using hx)]
        exact ih (by simpa [hx] using h)

theorem findSet_ne (l : List (String × String)) (t slug t2 : String) (h : ¬ t2 = t) :
    (l.map (fun p => if p.1 = t then (t, slug) else p)).find? (fun p => p.1 = t2) =
      l.find? (fun p => p.1 = t2) := by
  induction l with
  | nil => rfl
  | cons x xs ih =>
      by_cases hx : x.1 = t
      · simp only [List.map_cons, if_pos hx]
        rw [List.find?_cons_of_neg _ (by simpa using fun hc : t = t2 => h hc.symm),
            List.find?_cons_of_neg _ (by simpa [hx] using fun hc : x.1 = t2 => h (hx ▸ hc).symm)]
        exact ih
      · simp only [List.map_cons, if_neg hx]
        by_cases hx2 : x.1 = t2
        · rw [List.find?_cons_of_pos _ (by simpa using hx2),
              List.find?_cons_of_pos _ (by simpa using hx2)]
        · rw [List.find?_cons_of_neg _ (by simpa using hx2),
              List.find?_cons_of_neg _ (by simpa using hx2)]
          exact ih

theorem find_append_none (l : List (String × String)) (y : String × String)
    (t : String) (h : l.any (fun p => p.1 = t) = false) :
    (l ++ [y]).find? (fun p => p.1 = t) = if y.1 = t then some y else none := by
  induction l with
  | nil => by_cases hy : y.1 = t <;> simp [List.find?, hy]
  | cons x xs ih =>
      simp only [List.any_cons, Bool.or_eq_false_iff] at h
      simp only [List.cons_append]
      rw [List.find?_cons_of_neg _ (by simpa using h.1)]
      exact ih h.2

theorem find_append_single (l : List (String × String)) (y : String × String)
    (t2 : String) (hy : ¬ y.1 = t2) :
    (l ++ [y]).find? (fun p => p.1 = t2) = l.find? (fun p => p.1 = t2) := by
  induction l with
  | nil => simp [List.find?, hy]
  | cons x xs ih =>
      by_cases hx : x.1 = t2
      · simp only [List.cons_append]
        rw [List.find?_cons_of_pos _ (by simpa using hx),
            List.find?_cons_of_pos _ (by simpa using hx)]
      · simp only [List.cons_append]
        rw [List.find?_cons_of_neg _ (by simpa using hx),
            List.find?_cons_of_neg _ (by simpa using hx)]
        exact ih

theorem docGetState_docSetState_self (d : IndexDoc) (t slug : String) :
    docGetState (docSetState d t slug) t = some slug := by
  unfold docGetState docSetState
  split
  · next h => rw [findSet_self d.states t slug h]; rfl
  · next h =>
      rw [find_append_none d.states (t, slug) t (Bool.eq_false_iff.mpr h), if_pos rfl]
      rfl

theorem docGetState_docSetState_ne (d : IndexDoc) (t slug t2 : String) (h : ¬ t2 = t) :
    docGetState (docSetState d t slug) t2 = docGetState d t2 := by
  unfold docGetState docSetState
  split
  · rw [findSet_ne d.states t slug t2 h]
  · rw [find_append_single d.states (t, slug) t2 (fun hc : t = t2 => h hc.symm)]

theorem docGetState_congr {d1 d2 : IndexDoc} (t : String)
    (h : d1.states = d2.states) : docGetState d1 t = docGetState d2 t := by
  unfold docGetState; rw [h]

/- Per-check frame, postcondition, no-op and note-shape lemmas. -/

theorem checkTitle_fields (e : IndexEntry) (a : IndexDoc × List String) :
    (checkTitle e a).1.name = a.1.name ∧ (checkTitle e a).1.abstract = a.1.abstract ∧
    (checkTitle e a).1.pages = a.1.pages ∧ (checkTitle e a).1.stdLevel = a.1.stdLevel ∧
    (checkTitle e a).1.stream = a.1.stream ∧ (checkTitle e a).1.group = a.1.group ∧
    (checkTitle e a).1.rev = a.1.rev ∧ (checkTitle e a).1.tags = a.1.tags ∧
    (checkTitle e a).1.states = a.1.states := by
  unfold checkTitle; split <;> exact ⟨rfl, rfl, rfl, rfl, rfl, rfl, rfl, rfl, rfl⟩

theorem checkTitle_post (e : IndexEntry) (a : IndexDoc × List String) :
    (checkTitle e a).1.title = e.title := by
  unfold checkTitle; split
  · rfl
  · next h => exact (not_not.mp h).symm

theorem checkTitle_notes (e : IndexEntry) (a : IndexDoc × List String) :
    (checkTitle e a).2 = a.2 ∨
      (checkTitle e a).2 = a.2 ++ ["changed title to \x27" ++ e.title ++ "\x27"] := by
  unfold checkTitle; split
  · exact Or.inr rfl
  · exact Or.inl rfl

theorem checkAbstract_fields (e : IndexEntry) (a : IndexDoc × List String) :
    (checkAbstract e a).1.name = a.1.name ∧ (checkAbstract e a).1.title = a.1.title ∧
    (checkAbstract e a).1.pages = a.1.pages ∧ (checkAbstract e a).1.stdLevel = a.1.stdLevel ∧
    (checkAbstract e a).1.stream = a.1.stream ∧ (checkAbstract e a).1.group = a.1.group ∧
    (checkAbstract e a).1.rev = a.1.rev ∧ (checkAbstract e a).1.tags = a.1.tags ∧
    (checkAbstract e a).1.states = a.1.states := by
  unfold checkAbstract; split <;> exact ⟨rfl, rfl, rfl, rfl, rfl, rfl, rfl, rfl, rfl⟩

theorem checkAbstract_noop (e : IndexEntry) (a : IndexDoc × List String)
    (h : e.abstract = "" ∨ e.abstract = a.1.abstract) : checkAbstract e a = a := by
  unfold checkAbstract
  rw [if_neg (fun hc => h.elim (fun h1 => hc.1 h1) (fun h2 => hc.2 h2))]

theorem checkAbstract_post (e : IndexEntry) (a : IndexDoc × List String)
    (h : ¬ e.abstract = "") : (checkAbstract e a).1.abstract = e.abstract := by
  unfold checkAbstract; split
  · rfl
  · next hc =>
      have h2 : e.abstract = a.1.abstract := by
        by_contra hx; exact hc ⟨h, hx⟩
      exact h2.symm

theorem checkPages_fields (e : IndexEntry) (a : IndexDoc × List String) :
    (checkPages e a).1.name = a.1.name ∧ (checkPages e a).1.title = a.1.title ∧
    (checkPages e a).1.abstract = a.1.abstract ∧ (checkPages e a).1.stdLevel = a.1.stdLevel ∧
    (checkPages e a).1.stream = a.1.stream ∧ (checkPages e a).1.group = a.1.group ∧
    (checkPages e a).1.rev = a.1.rev ∧ (checkPages e a).1.tags = a.1.tags ∧
    (checkPages e a).1.states = a.1.states := by
  unfold checkPages; split <;> exact ⟨rfl, rfl, rfl, rfl, rfl, rfl, rfl, rfl, rfl⟩

theorem checkPages_noop (e : IndexEntry) (a : IndexDoc × List String)
    (h : e.pages = "" ∨ a.1.pages = some (pagesInt e.pages)) : checkPages e a = a := by
  unfold checkPages
  rw [if_neg (fun hc => h.elim hc.1 hc.2)]

theorem checkPages_post (e : IndexEntry) (a : IndexDoc × List String)
    (h : ¬ e.pages = "") : (checkPages e a).1.pages = some (pagesInt e.pages) := by
  unfold checkPages; split
  · rfl
  · next hc =>
      by_contra hx; exact hc ⟨h, hx⟩

theorem checkStdLevel_fields (e : IndexEntry) (a : IndexDoc × List String) :
    (checkStdLevel e a).1.name = a.1.name ∧ (checkStdLevel e a).1.title = a.1.title ∧
    (checkStdLevel e a).1.abstract = a.1.abstract ∧ (checkStdLevel e a).1.pages = a.1.pages ∧
    (checkStdLevel e a).1.stream = a.1.stream ∧ (checkStdLevel e a).1.group = a.1.group ∧
    (checkStdLevel e a).1.rev = a.1.rev ∧ (checkStdLevel e a).1.tags = a.1.tags ∧
    (checkStdLevel e a).1.states = a.1.states := by
  unfold checkStdLevel; split <;> exact ⟨rfl, rfl, rfl, rfl, rfl, rfl, rfl, rfl, rfl⟩

theorem checkStdLevel_post (e : IndexEntry) (a : IndexDoc × List String) :
    (checkStdLevel e a).1.stdLevel = some (std_level_mapping e.currentStatus) := by
  unfold checkStdLevel; split
  · rfl
  · next h => exact not_not.mp h

theorem checkStdLevel_notes (e : IndexEntry) (a : IndexDoc × List String) :
    (checkStdLevel e a).2 = a.2 ∨
      (checkStdLevel e a).2 = a.2 ++
        ["changed standardization level to " ++ std_level_mapping e.currentStatus] := by
  unfold checkStdLevel; split
  · exact Or.inr rfl
  · exact Or.inl rfl

theorem checkRfcState_fields (a : IndexDoc × List String) :
    (checkRfcState a).1.name = a.1.name ∧ (checkRfcState a).1.title = a.1.title ∧
    (checkRfcState a).1.abstract = a.1.abstract ∧ (checkRfcState a).1.pages = a.1.pages ∧
    (checkRfcState a).1.stdLevel = a.1.stdLevel ∧ (checkRfcState a).1.stream = a.1.stream ∧
    (checkRfcState a).1.group = a.1.group ∧ (checkRfcState a).1.rev = a.1.rev ∧
    (checkRfcState a).1.tags = a.1.tags := by
  unfold checkRfcState; split
  · obtain ⟨hs, ht⟩ := docSetState_scalars_tags a.1 "draft" "rfc"
    simp only [docScalars, Prod.mk.injEq] at hs
    exact ⟨hs.1, hs.2.1, hs.2.2.1, hs.2.2.2.1, hs.2.2.2.2.1, hs.2.2.2.2.2.1,
      hs.2.2.2.2.2.2.1, hs.2.2.2.2.2.2.2, ht⟩
  · exact ⟨rfl, rfl, rfl, rfl, rfl, rfl, rfl, rfl, rfl⟩

theorem checkRfcState_post (a : IndexDoc × List String) :
    docGetState (checkRfcState a).1 "draft" = some "rfc" := by
  unfold checkRfcState; split
  · exact docGetState_docSetState_self a.1 "draft" "rfc"
  · next h => exact not_not.mp h

theorem checkRfcState_getState_ne (a : IndexDoc × List String) (t : String)
    (h : ¬ t = "draft") : docGetState (checkRfcState a).1 t = docGetState a.1 t := by
  unfold checkRfcState; split
  · exact docGetState_docSetState_ne a.1 "draft" "rfc" t h
  · rfl

theorem checkRfcState_notes (a : IndexDoc × List String) :
    (checkRfcState a).2 = a.2 ∨ (checkRfcState a).2 = a.2 ++ ["changed state to rfc"] := by
  unfold checkRfcState; split
  · exact Or.inr rfl
  · exact Or.inl rfl

theorem checkStream_fields (e : IndexEntry) (a : IndexDoc × List String) :
    (checkStream e a).1.name = a.1.name ∧ (checkStream e a).1.title = a.1.title ∧
    (checkStream e a).1.abstract = a.1.abstract ∧ (checkStream e a).1.pages = a.1.pages ∧
    (checkStream e a).1.stdLevel = a.1.stdLevel ∧ (checkStream e a).1.group = a.1.group ∧
    (checkStream e a).1.rev = a.1.rev ∧ (checkStream e a).1.tags = a.1.tags ∧
    (checkStream e a).1.states = a.1.states := by
  unfold checkStream; split <;> exact ⟨rfl, rfl, rfl, rfl, rfl, rfl, rfl, rfl, rfl⟩

theorem checkStream_post (e : IndexEntry) (a : IndexDoc × List String) :
    (checkStream e a).1.stream = some (stream_mapping e.stream) := by
  unfold checkStream; split
  · rfl
  · next h => exact not_not.mp h

theorem checkStream_notes (e : IndexEntry) (a : IndexDoc × List String) :
    (checkStream e a).2 = a.2 ∨
      (checkStream e a).2 = a.2 ++ ["changed stream to " ++ stream_mapping e.stream] := by
  unfold checkStream; split
  · exact Or.inr rfl
  · exact Or.inl rfl

theorem checkGroup_fields (e : IndexEntry) (a : IndexDoc × List String) :
    (checkGroup e a).1.name = a.1.name ∧ (checkGroup e a).1.title = a.1.title ∧
    (checkGroup e a).1.abstract = a.1.abstract ∧ (checkGroup e a).1.pages = a.1.pages ∧
    (checkGroup e a).1.stdLevel = a.1.stdLevel ∧ (checkGroup e a).1.stream = a.1.stream ∧
    (checkGroup e a).1.rev = a.1.rev ∧ (checkGroup e a).1.tags = a.1.tags ∧
    (checkGroup e a).1.states = a.1.states := by
  unfold checkGroup; split
  · exact ⟨rfl, rfl, rfl, rfl, rfl, rfl, rfl, rfl, rfl⟩
  · split <;> exact ⟨rfl, rfl, rfl, rfl, rfl, rfl, rfl, rfl, rfl⟩

theorem checkGroup_post (e : IndexEntry) (a : IndexDoc × List String) :
    ¬ (checkGroup e a).1.group = none := by
  unfold checkGroup; split
  · next g heq => simp [heq]
  · split <;> simp

theorem checkGroup_notes (e : IndexEntry) (a : IndexDoc × List String) :
    (checkGroup e a).2 = a.2 ∨
      ∃ w, (checkGroup e a).2 = a.2 ++ ["set group to " ++ w] := by
  unfold checkGroup; split
  · exact Or.inl rfl
  · split
    · next w heq => exact Or.inr ⟨w, rfl⟩
    · exact Or.inl rfl

/- Composite frame/postcondition lemmas for the attribute checks. -/

theorem applyDocChecks_spec (e : IndexEntry) (d : IndexDoc) :
    (applyDocChecks e d).1.name = d.name ∧
    (applyDocChecks e d).1.rev = d.rev ∧
    (applyDocChecks e d).1.tags = d.tags ∧
    (applyDocChecks e d).1.title = e.title ∧
    (e.abstract = "" → (applyDocChecks e d).1.abstract = d.abstract) ∧
    (¬ e.abstract = "" → (applyDocChecks e d).1.abstract = e.abstract) ∧
    (e.pages = "" → (applyDocChecks e d).1.pages = d.pages) ∧
    (¬ e.pages = "" → (applyDocChecks e d).1.pages = some (pagesInt e.pages)) ∧
    (applyDocChecks e d).1.stdLevel = some (std_level_mapping e.currentStatus) ∧
    docGetState (applyDocChecks e d).1 "draft" = some "rfc" ∧
    (applyDocChecks e d).1.stream = some (stream_mapping e.stream) ∧
    ¬ (applyDocChecks e d).1.group = none ∧
    (∀ t, ¬ t = "draft" → docGetState (applyDocChecks e d).1 t = docGetState d t) := by
  unfold applyDocChecks
  obtain ⟨B1n, B1a, B1p, B1l, B1s, B1g, B1r, B1t, B1st⟩ :=
    checkTitle_fields e (d, ([] : List String))
  obtain ⟨B2n, B2ti, B2p, B2l, B2s, B2g, B2r, B2t, B2st⟩ :=
    checkAbstract_fields e (checkTitle e (d, []))
  obtain ⟨B3n, B3ti, B3a, B3l, B3s, B3g, B3r, B3t, B3st⟩ :=
    checkPages_fields e (checkAbstract e (checkTitle e (d, [])))
  obtain ⟨B4n, B4ti, B4a, B4p, B4s, B4g, B4r, B4t, B4st⟩ :=
    checkStdLevel_fields e (checkPages e (checkAbstract e (checkTitle e (d, []))))
  obtain ⟨B5n, B5ti, B5a, B5p, B5l, B5s, B5g, B5r, B5t⟩ :=
    checkRfcState_fields (checkStdLevel e (checkPages e (checkAbstract e (checkTitle e (d, [])))))
  obtain ⟨B6n, B6ti, B6a, B6p, B6l, B6g, B6r, B6t, B6st⟩ :=
    checkStream_fields e (checkRfcState (checkStdLevel e (checkPages e
      (checkAbstract e (checkTitle e (d, []))))))
  obtain ⟨B7n, B7ti, B7a, B7p, B7l, B7s, B7r, B7t, B7st⟩ :=
    checkGroup_fields e (checkStream e (checkRfcState (checkStdLevel e (checkPages e
      (checkAbstract e (checkTitle e (d, [])))))))
  refine ⟨?_, ?_, ?_, ?_, ?_, ?_, ?_, ?_, ?_, ?_, ?_, ?_, ?_⟩
  · exact B7n.trans (B6n.trans (B5n.trans (B4n.trans (B3n.trans (B2n.trans B1n)))))
  · exact B7r.trans (B6r.trans (B5r.trans (B4r.trans (B3r.trans (B2r.trans B1r)))))
  · exact B7t.trans (B6t.trans (B5t.trans (B4t.trans (B3t.trans (B2t.trans B1t)))))
  · exact B7ti.trans (B6ti.trans (B5ti.trans (B4ti.trans (B3ti.trans (B2ti.trans
      (checkTitle_post e (d, [])))))))
  · intro h
    have N2 : checkAbstract e (checkTitle e (d, ([] : List String))) =
        checkTitle e (d, []) := checkAbstract_noop e _ (Or.inl h)
    have E2 : (checkAbstract e (checkTitle e (d, ([] : List String)))).1.abstract =
        (checkTitle e (d, ([] : List String))).1.abstract :=
      congrArg (fun x => x.1.abstract) N2
    exact B7a.trans (B6a.trans (B5a.trans (B4a.trans (B3a.trans (E2.trans B1a)))))
  · intro h
    exact B7a.trans (B6a.trans (B5a.trans (B4a.trans (B3a.trans
      (checkAbstract_post e _ h)))))
  · intro h
    have N3 : checkPages e (checkAbstract e (checkTitle e (d, ([] : List String)))) =
        checkAbstract e (checkTitle e (d, [])) := checkPages_noop e _ (Or.inl h)
    have E3 : (checkPages e (checkAbstract e (checkTitle e (d, ([] : List String))))).1.pages =
        (checkAbstract e (checkTitle e (d, ([] : List String)))).1.pages :=
      congrArg (fun x => x.1.pages) N3
    exact B7p.trans (B6p.trans (B5p.trans (B4p.trans (E3.trans (B2p.trans B1p)))))
  · intro h
    exact B7p.trans (B6p.trans (B5p.trans (B4p.trans (checkPages_post e _ h))))
  · exact B7l.trans (B6l.trans (B5l.trans (checkStdLevel_post e _)))
  · exact (docGetState_congr "draft" B7st).trans
      ((docGetState_congr "draft" B6st).trans (checkRfcState_post _))
  · exact B7s.trans (checkStream_post e _)
  · exact checkGroup_post e _
  · intro t ht
    exact (docGetState_congr t B7st).trans ((docGetState_congr t B6st).trans
      ((checkRfcState_getState_ne _ t ht).trans ((docGetState_congr t B4st).trans
        ((docGetState_congr t B3st).trans ((docGetState_congr t B2st).trans
          (docGetState_congr t B1st))))))

theorem stateFixStep_scalars (t : String) (a : IndexDoc × List String) :
    docScalars (stateFixStep t a).1 = docScalars a.1 ∧
      (stateFixStep t a).1.tags = a.1.tags := by
  unfold stateFixStep
  split
  · split
    · exact docSetState_scalars_tags a.1 t "pub"
    · exact ⟨rfl, rfl⟩
  · split
    · exact docSetState_scalars_tags a.1 t "idexists"
    · exact ⟨rfl, rfl⟩

theorem stateFixStep_notes (t : String) (a : IndexDoc × List String) :
    (stateFixStep t a).2 = a.2 ∨
      (stateFixStep t a).2 = a.2 ++ ["changed " ++ t ++ " to pub"] := by
  unfold stateFixStep
  split
  · split
    · exact Or.inr rfl
    · exact Or.inl rfl
  · split <;> exact Or.inl rfl

theorem applyStateFixups_scalars (d : IndexDoc) :
    docScalars (applyStateFixups d).1 = docScalars d ∧
      (applyStateFixups d).1.tags = d.tags := by
  unfold applyStateFixups
  obtain ⟨s1, t1⟩ := stateFixStep_scalars "draft-iesg" (d, ([] : List String))
  obtain ⟨s2, t2⟩ := stateFixStep_scalars "draft-stream-iab"
    (stateFixStep "draft-iesg" (d, []))
  obtain ⟨s3, t3⟩ := stateFixStep_scalars "draft-stream-irtf"
    (stateFixStep "draft-stream-iab" (stateFixStep "draft-iesg" (d, [])))
  obtain ⟨s4, t4⟩ := stateFixStep_scalars "draft-stream-ise"
    (stateFixStep "draft-stream-irtf" (stateFixStep "draft-stream-iab"
      (stateFixStep "draft-iesg" (d, []))))
  exact ⟨s4.trans (s3.trans (s2.trans s1)), t4.trans (t3.trans (t2.trans t1))⟩

theorem applyStateFixups_notes (d : IndexDoc) :
    ∀ c ∈ (applyStateFixups d).2,
      c ∈ ["changed draft-iesg to pub", "changed draft-stream-iab to pub",
           "changed draft-stream-irtf to pub", "changed draft-stream-ise to pub"] := by
  intro c hc
  unfold applyStateFixups at hc
  have n1 := stateFixStep_notes "draft-iesg" (d, ([] : List String))
  have n2 := stateFixStep_notes "draft-stream-iab" (stateFixStep "draft-iesg" (d, []))
  have n3 := stateFixStep_notes "draft-stream-irtf"
    (stateFixStep "draft-stream-iab" (stateFixStep "draft-iesg" (d, [])))
  have n4 := stateFixStep_notes "draft-stream-ise"
    (stateFixStep "draft-stream-irtf" (stateFixStep "draft-stream-iab"
      (stateFixStep "draft-iesg" (d, []))))
  rcases n4 with h4 | h4 <;> rw [h4] at hc <;>
    rcases n3 with h3 | h3 <;> rw [h3] at hc <;>
      rcases n2 with h2 | h2 <;> rw [h2] at hc <;>
        rcases n1 with h1 | h1 <;> rw [h1] at hc <;>
          simp_all <;> tauto

/- Errata-tag reconciliation lemmas. -/

theorem applyErrataTags_frame (errata : List Erratum) (n : Nat) (he : Bool)
    (d : IndexDoc) :
    docScalars (applyErrataTags errata n he d).1 = docScalars d ∧
      (applyErrataTags errata n he d).1.states = d.states := by
  simp only [applyErrataTags]
  split_ifs <;> exact ⟨rfl, rfl⟩

theorem applyErrataTags_settled (errata : List Erratum) (e : IndexEntry) (d : IndexDoc) :
    errataTagsSettled errata e (applyErrataTags errata e.rfcNumber e.hasErrata d).1 := by
  simp only [errataTagsSettled, applyErrataTags]
  split_ifs <;>
    simp_all [List.mem_append, List.mem_filter] <;> tauto

theorem applyErrataTags_removed_note (errata : List Erratum) (n : Nat) (he : Bool)
    (d : IndexDoc)
    (hne : ¬ docErrata errata n = [])
    (hrej : (docErrata errata n).all (fun er => er.status = "Rejected") = true)
    (hmem : "errata" ∈ d.tags) :
    "removed Errata tag (all errata rejected)" ∈ (applyErrataTags errata n he d).2 := by
  simp only [applyErrataTags]
  split_ifs <;> simp_all

theorem applyErrataTags_notes (errata : List Erratum) (n : Nat) (he : Bool)
    (d : IndexDoc) :
    ∀ c ∈ (applyErrataTags errata n he d).2,
      c ∈ ["added Errata tag", "added Verified Errata tag",
           "removed Errata tag (all errata rejected)", "removed Errata tag",
           "removed Verified Errata tag"] := by
  intro c hc
  simp only [applyErrataTags] at hc
  split_ifs at hc <;> simp_all <;> tauto

/- Relationship- and alias-creation note shapes and frames. -/

theorem addRels_notes (src kind kn : String) : ∀ (ts : List String) (db : IndexDb),
    ∀ c ∈ (addRels db src kind kn ts).2, ∃ x,
      c = "created " ++ kn ++ " relation between " ++ prettify_std_name src ++
          " and " ++ prettify_std_name x := by
  intro ts
  induction ts with
  | nil => intro db c hc; simp [addRels] at hc
  | cons x ts ih =>
      intro db c hc
      unfold addRels at hc
      split at hc
      · exact ih db c hc
      · simp only [List.mem_cons] at hc
        rcases hc with rfl | hc
        · exact ⟨x, rfl⟩
        · exact ih _ c hc

theorem addAlso_frame (k : String) : ∀ (l : List String) (db : IndexDb),
    (addAlsoAliases db k l).1.docs = db.docs ∧
    (addAlsoAliases db k l).1.rels = db.rels ∧
    (addAlsoAliases db k l).1.events = db.events ∧
    ∃ new, (addAlsoAliases db k l).1.aliases = db.aliases ++ new := by
  intro l
  induction l with
  | nil => intro db; exact ⟨rfl, rfl, rfl, [], by simp [addAlsoAliases]⟩
  | cons a rest ih =>
      intro db
      unfold addAlsoAliases
      split
      · exact ih db
      · obtain ⟨h1, h2, h3, new, h4⟩ := ih { db with aliases := db.aliases ++ [(a.toLower, k)] }
        exact ⟨h1, h2, h3, (a.toLower, k) :: new, by simpa using h4⟩

theorem addAlso_notes (k : String) : ∀ (l : List String) (db : IndexDb),
    ∀ c ∈ (addAlsoAliases db k l).2, ∃ s, c = "created alias " ++ s := by
  intro l
  induction l with
  | nil => intro db c hc; simp [addAlsoAliases] at hc
  | cons a rest ih =>
      intro db c hc
      unfold addAlsoAliases at hc
      split at hc
      · exact ih db c hc
      · simp only [List.mem_cons] at hc
        rcases hc with rfl | hc
        · exact ⟨prettify_std_name a.toLower, rfl⟩
        · exact ih _ c hc

theorem resolveDoc_alias (db : IndexDb) (e : IndexEntry) (k : String)
    (h : aliasFind db.aliases (rfcName e) = some k) :
    resolveDoc db e = (db, k, []) := by
  unfold rfcName at h
  simp only [resolveDoc]
  rw [h]

/- Prefix tests against composite note strings. -/

theorem isPrefixOf_append_false_long (p l r : List Char) (hlen : p.length ≤ l.length)
    (h : p.isPrefixOf (l.take p.length) = false) : p.isPrefixOf (l ++ r) = false := by
  by_contra hx
  rw [Bool.not_eq_false] at hx
  have hpre : p <+: l ++ r := List.isPrefixOf_iff_prefix.mp hx
  have hq := List.prefix_iff_eq_take.mp hpre
  rw [List.take_append_eq_append_take, Nat.sub_eq_zero_of_le hlen, List.take_zero,
      List.append_nil] at hq
  rw [← hq] at h
  have htrue : p.isPrefixOf p = true := List.isPrefixOf_iff_prefix.mpr (List.prefix_refl p)
  rw [htrue] at h
  exact absurd h (by simp)

theorem isPrefixOf_append_false_short (p l r : List Char) (hlen : l.length ≤ p.length)
    (h : ¬ p.take l.length = l) : p.isPrefixOf (l ++ r) = false := by
  by_contra hx
  rw [Bool.not_eq_false] at hx
  have hpre : p <+: l ++ r := List.isPrefixOf_iff_prefix.mp hx
  have hq := List.prefix_iff_eq_take.mp hpre
  rw [List.take_append_eq_append_take, List.take_of_length_le hlen] at hq
  apply h
  rw [hq, List.take_left]

theorem isHeadOf_append_long (p l r : String)
    (hlen : p.toList.length ≤ l.toList.length)
    (h : p.toList.isPrefixOf (l.toList.take p.toList.length) = false) :
    isHeadOf p (l ++ r) = false := by
  unfold isHeadOf
  have hd : (l ++ r).toList = l.toList ++ r.toList := String.data_append l r
  rw [hd]
  exact isPrefixOf_append_false_long _ _ _ hlen h

theorem isHeadOf_append_short (p l r : String)
    (hlen : l.toList.length ≤ p.toList.length)
    (h : ¬ p.toList.take l.toList.length = l.toList) :
    isHeadOf p (l ++ r) = false := by
  unfold isHeadOf
  have hd : (l ++ r).toList = l.toList ++ r.toList := String.data_append l r
  rw [hd]
  exact isPrefixOf_append_false_short _ _ _ hlen h

/- Per-check note-shape and membership corollaries, used to show that no
note of a given kind can be logged. -/

theorem checkAbstract_notes (e : IndexEntry) (a : IndexDoc × List String) :
    (checkAbstract e a).2 = a.2 ∨
      (¬ e.abstract = "" ∧
        (checkAbstract e a).2 = a.2 ++
          ["changed abstract to \x27" ++ e.abstract ++ "\x27"]) := by
  unfold checkAbstract
  split
  · next h => exact Or.inr ⟨h.1, rfl⟩
  · exact Or.inl rfl

theorem checkPages_notes (e : IndexEntry) (a : IndexDoc × List String) :
    (checkPages e a).2 = a.2 ∨
      (¬ e.pages = "" ∧
        (checkPages e a).2 = a.2 ++
          ["changed pages to " ++ toString (pagesInt e.pages)]) := by
  unfold checkPages
  split
  · next h => exact Or.inr ⟨h.1, rfl⟩
  · exact Or.inl rfl

theorem checkTitle_mem (e : IndexEntry) (a : IndexDoc × List String) (c : String)
    (hc : c ∈ (checkTitle e a).2) :
    c ∈ a.2 ∨ c = "changed title to \x27" ++ e.title ++ "\x27" := by
  rcases checkTitle_notes e a with h | h <;> rw [h] at hc
  · exact Or.inl hc
  · rcases List.mem_append.mp hc with hc | hc
    · exact Or.inl hc
    · exact Or.inr (List.mem_singleton.mp hc)

theorem checkAbstract_mem (e : IndexEntry) (a : IndexDoc × List String) (c : String)
    (hc : c ∈ (checkAbstract e a).2) :
    c ∈ a.2 ∨
      (¬ e.abstract = "" ∧
        c = "changed abstract to \x27" ++ e.abstract ++ "\x27") := by
  rcases checkAbstract_notes e a with h | ⟨hne, h⟩ <;> rw [h] at hc
  · exact Or.inl hc
  · rcases List.mem_append.mp hc with hc | hc
    · exact Or.inl hc
    · exact Or.inr ⟨hne, List.mem_singleton.mp hc⟩

theorem checkPages_mem (e : IndexEntry) (a : IndexDoc × List String) (c : String)
    (hc : c ∈ (checkPages e a).2) :
    c ∈ a.2 ∨
      (¬ e.pages = "" ∧ c = "changed pages to " ++ toString (pagesInt e.pages)) := by
  rcases checkPages_notes e a with h | ⟨hne, h⟩ <;> rw [h] at hc
  · exact Or.inl hc
  · rcases List.mem_append.mp hc with hc | hc
    · exact Or.inl hc
    · exact Or.inr ⟨hne, List.mem_singleton.mp hc⟩

theorem checkStdLevel_mem (e : IndexEntry) (a : IndexDoc × List String) (c : String)
    (hc : c ∈ (checkStdLevel e a).2) :
    c ∈ a.2 ∨
      c = "changed standardization level to " ++ std_level_mapping e.currentStatus := by
  rcases checkStdLevel_notes e a with h | h <;> rw [h] at hc
  · exact Or.inl hc
  · rcases List.mem_append.mp hc with hc | hc
    · exact Or.inl hc
    · exact Or.inr (List.mem_singleton.mp hc)

theorem checkRfcState_mem (a : IndexDoc × List String) (c : String)
    (hc : c ∈ (checkRfcState a).2) :
    c ∈ a.2 ∨ c = "changed state to rfc" := by
  rcases checkRfcState_notes a with h | h <;> rw [h] at hc
  · exact Or.inl hc
  · rcases List.mem_append.mp hc with hc | hc
    · exact Or.inl hc
    · exact Or.inr (List.mem_singleton.mp hc)

theorem checkStream_mem (e : IndexEntry) (a : IndexDoc × List String) (c : String)
    (hc : c ∈ (checkStream e a).2) :
    c ∈ a.2 ∨ c = "changed stream to " ++ stream_mapping e.stream := by
  rcases checkStream_notes e a with h | h <;> rw [h] at hc
  · exact Or.inl hc
  · rcases List.mem_append.mp hc with hc | hc
    · exact Or.inl hc
    · exact Or.inr (List.mem_singleton.mp hc)

theorem checkGroup_mem (e : IndexEntry) (a : IndexDoc × List String) (c : String)
    (hc : c ∈ (checkGroup e a).2) :
    c ∈ a.2 ∨ ∃ w, c = "set group to " ++ w := by
  rcases checkGroup_notes e a with h | ⟨w, h⟩ <;> rw [h] at hc
  · exact Or.inl hc
  · rcases List.mem_append.mp hc with hc | hc
    · exact Or.inl hc
    · exact Or.inr ⟨w, List.mem_singleton.mp hc⟩

theorem applyDocChecks_note_shapes (e : IndexEntry) (d : IndexDoc) :
    ∀ c ∈ (applyDocChecks e d).2,
      c = "changed title to \x27" ++ e.title ++ "\x27" ∨
      (¬ e.abstract = "" ∧
        c = "changed abstract to \x27" ++ e.abstract ++ "\x27") ∨
      (¬ e.pages = "" ∧ c = "changed pages to " ++ toString (pagesInt e.pages)) ∨
      c = "changed standardization level to " ++ std_level_mapping e.currentStatus ∨
      c = "changed state to rfc" ∨
      c = "changed stream to " ++ stream_mapping e.stream ∨
      (∃ w, c = "set group to " ++ w) := by
  intro c hc
  unfold applyDocChecks at hc
  rcases checkGroup_mem e _ c hc with hc | hw
  · rcases checkStream_mem e _ c hc with hc | hs
    · rcases checkRfcState_mem _ c hc with hc | hr
      · rcases checkStdLevel_mem e _ c hc with hc | hl
        · rcases checkPages_mem e _ c hc with hc | hp2
          · rcases checkAbstract_mem e _ c hc with hc | ha2
            · rcases checkTitle_mem e _ c hc with hc | ht
              · simp at hc
              · exact Or.inl ht
            · exact Or.inr (Or.inl ha2)
          · exact Or.inr (Or.inr (Or.inl hp2))
        · exact Or.inr (Or.inr (Or.inr (Or.inl hl)))
      · exact Or.inr (Or.inr (Or.inr (Or.inr (Or.inl hr))))
    · exact Or.inr (Or.inr (Or.inr (Or.inr (Or.inr (Or.inl hs)))))
  · exact Or.inr (Or.inr (Or.inr (Or.inr (Or.inr (Or.inr hw)))))

/- ------------------------------------------------------------------ -/
/- C10                                                                 -/
/- ------------------------------------------------------------------ -/

set_option maxHeartbeats 2000000 in
/-- C10: when an index entry supplies an empty abstract string, the stored
abstract of the resolved document is unchanged and no change note with
head "changed abstract" is logged; independently, when it supplies an
empty page-count string, the stored page count is unchanged and no note
with head "changed pages" is logged.  The two fields are covered by
separate implications, so entries where only one of the two
authority-sourced values is empty are covered as well.  Stated for the
per-entry processing step on a document reachable through its canonical
alias. -/
theorem index_empty_fields_preserved (now : CalDate) (errata : List Erratum)
    (db : IndexDb) (e : IndexEntry) (k : String) (d0 : IndexDoc)
    (hk : aliasFind db.aliases (rfcName e) = some k)
    (hd : docFind db.docs k = some d0) :
    ∃ d1, docFind (processIndexEntry now errata db e).1.docs k = some d1 ∧
      (e.abstract = "" →
        d1.abstract = d0.abstract ∧
        ∀ c ∈ (processIndexEntry now errata db e).2,
          isHeadOf "changed abstract" c = false) ∧
      (e.pages = "" →
        d1.pages = d0.pages ∧
        ∀ c ∈ (processIndexEntry now errata db e).2,
          isHeadOf "changed pages" c = false) := by
  have hres := resolveDoc_alias db e k hk
  obtain ⟨hcn, hcr, hct, hcti, hcab, hcab2, hcpg, hcpg2, hcl, hcst, hcs2, hcg, hcne⟩ :=
    applyDocChecks_spec e d0
  obtain ⟨hfsc, hfst⟩ := applyStateFixups_scalars (applyDocChecks e d0).1
  simp only [docScalars, Prod.mk.injEq] at hfsc
  obtain ⟨hf1, hf2, hf3, hf4, hf5⟩ := hfsc
  obtain ⟨hesc, hest⟩ := applyErrataTags_frame errata e.rfcNumber e.hasErrata
    (applyStateFixups (applyDocChecks e d0).1).1
  simp only [docScalars, Prod.mk.injEq] at hesc
  obtain ⟨he1, he2, he3, he4, he5⟩ := hesc
  obtain ⟨hb1a, hb1d, hb1e⟩ := addRels_frame k "obs" "obsoletes"
    (parse_relation_list db.aliases e.obsoletes) db
  obtain ⟨hb2a, hb2d, hb2e⟩ := addRels_frame k "updates" "updates"
    (parse_relation_list
      (addRels db k "obs" "obsoletes" (parse_relation_list db.aliases e.obsoletes)).1.aliases
      e.updates)
    (addRels db k "obs" "obsoletes" (parse_relation_list db.aliases e.obsoletes)).1
  obtain ⟨hb3d, hb3r, hb3e, hb3new⟩ := addAlso_frame k e.also
    (addRels
      (addRels db k "obs" "obsoletes" (parse_relation_list db.aliases e.obsoletes)).1
      k "updates" "updates"
      (parse_relation_list
        (addRels db k "obs" "obsoletes" (parse_relation_list db.aliases e.obsoletes)).1.aliases
        e.updates)).1
  have hname : (applyErrataTags errata e.rfcNumber e.hasErrata
      (applyStateFixups (applyDocChecks e d0).1).1).1.name = k :=
    he1.trans (hf1.trans (hcn.trans (docFind_name hd)))
  have habst : e.abstract = "" → (applyErrataTags errata e.rfcNumber e.hasErrata
      (applyStateFixups (applyDocChecks e d0).1).1).1.abstract = d0.abstract :=
    fun ha => he3.trans (hf3.trans (hcab ha))
  have hpgs : e.pages = "" → (applyErrataTags errata e.rfcNumber e.hasErrata
      (applyStateFixups (applyDocChecks e d0).1).1).1.pages = d0.pages :=
    fun hp => he4.trans (hf4.trans (hcpg hp))
  have hdocs :
      (addAlsoAliases
        (addRels
          (addRels db k "obs" "obsoletes" (parse_relation_list db.aliases e.obsoletes)).1
          k "updates" "updates"
          (parse_relation_list
            (addRels db k "obs" "obsoletes"
              (parse_relation_list db.aliases e.obsoletes)).1.aliases
            e.updates)).1 k e.also).1.docs = db.docs :=
    hb3d.trans (hb2d.trans hb1d)
  have HFIND : docFind (processIndexEntry now errata db e).1.docs k =
      some (applyErrataTags errata e.rfcNumber e.hasErrata
        (applyStateFixups (applyDocChecks e d0).1).1).1 := by
    simp only [processIndexEntry, hres]
    try dsimp only
    rw [hd]
    simp only [Option.getD_some]
    rw [apply_ite (fun p : IndexDb × List String => p.1.docs)]
    dsimp only
    rw [ite_self]
    rw [hdocs]
    exact docFind_docSet_self _ hd hname
  have hstepA : e.abstract = "" → ∀ c : String,
      (c ∈ (applyDocChecks e d0).2 ∨
       c ∈ (applyStateFixups (applyDocChecks e d0).1).2 ∨
       c ∈ (addRels db k "obs" "obsoletes" (parse_relation_list db.aliases e.obsoletes)).2 ∨
       c ∈ (addRels
              (addRels db k "obs" "obsoletes" (parse_relation_list db.aliases e.obsoletes)).1
              k "updates" "updates"
              (parse_relation_list
                (addRels db k "obs" "obsoletes"
                  (parse_relation_list db.aliases e.obsoletes)).1.aliases
                e.updates)).2 ∨
       c ∈ (addAlsoAliases
              (addRels
                (addRels db k "obs" "obsoletes"
                  (parse_relation_list db.aliases e.obsoletes)).1
                k "updates" "updates"
                (parse_relation_list
                  (addRels db k "obs" "obsoletes"
                    (parse_relation_list db.aliases e.obsoletes)).1.aliases
                  e.updates)).1 k e.also).2 ∨
       c ∈ (applyErrataTags errata e.rfcNumber e.hasErrata
              (applyStateFixups (applyDocChecks e d0).1).1).2 ∨
       c = "added RFC published event at " ++
             fmtDate (synthesized_time ⟨e.pubYear, e.pubMonth, 1⟩ now)) →
      isHeadOf "changed abstract" c = false := by
    intro ha c hc
    rcases hc with hc | hc | hc | hc | hc | hc | hc
    · rcases applyDocChecks_note_shapes e d0 c hc with
        h | ⟨hne, h⟩ | ⟨hne, h⟩ | h | h | h | ⟨w, h⟩
      · subst h
        rw [String.append_assoc]
        exact isHeadOf_append_long _ _ _ (by decide) (by decide)
      · exact absurd ha hne
      · subst h
        exact isHeadOf_append_long _ _ _ (by decide) (by decide)
      · subst h
        exact isHeadOf_append_long _ _ _ (by decide) (by decide)
      · subst h
        decide
      · subst h
        exact isHeadOf_append_long _ _ _ (by decide) (by decide)
      · subst h
        exact isHeadOf_append_short _ _ _ (by decide) (by decide)
    · have h4 := applyStateFixups_notes (applyDocChecks e d0).1 c hc
      simp only [List.mem_cons, List.not_mem_nil, or_false] at h4
      rcases h4 with rfl | rfl | rfl | rfl <;> decide
    · obtain ⟨x, hx⟩ := addRels_notes k "obs" "obsoletes" _ db c hc
      subst hx
      simp only [String.append_assoc]
      exact isHeadOf_append_short _ _ _ (by decide) (by decide)
    · obtain ⟨x, hx⟩ := addRels_notes k "updates" "updates" _ _ c hc
      subst hx
      simp only [String.append_assoc]
      exact isHeadOf_append_short _ _ _ (by decide) (by decide)
    · obtain ⟨sx, hs⟩ := addAlso_notes k e.also _ c hc
      subst hs
      exact isHeadOf_append_short _ _ _ (by decide) (by decide)
    · have h5 := applyErrataTags_notes errata e.rfcNumber e.hasErrata
        (applyStateFixups (applyDocChecks e d0).1).1 c hc
      simp only [List.mem_cons, List.not_mem_nil, or_false] at h5
      rcases h5 with rfl | rfl | rfl | rfl | rfl <;> decide
    · subst hc
      exact isHeadOf_append_long _ _ _ (by decide) (by decide)
  have hstepP : e.pages = "" → ∀ c : String,
      (c ∈ (applyDocChecks e d0).2 ∨
       c ∈ (applyStateFixups (applyDocChecks e d0).1).2 ∨
       c ∈ (addRels db k "obs" "obsoletes" (parse_relation_list db.aliases e.obsoletes)).2 ∨
       c ∈ (addRels
              (addRels db k "obs" "obsoletes" (parse_relation_list db.aliases e.obsoletes)).1
              k "updates" "updates"
              (parse_relation_list
                (addRels db k "obs" "obsoletes"
                  (parse_relation_list db.aliases e.obsoletes)).1.aliases
                e.updates)).2 ∨
       c ∈ (addAlsoAliases
              (addRels
                (addRels db k "obs" "obsoletes"
                  (parse_relation_list db.aliases e.obsoletes)).1
                k "updates" "updates"
                (parse_relation_list
                  (addRels db k "obs" "obsoletes"
                    (parse_relation_list db.aliases e.obsoletes)).1.aliases
                  e.updates)).1 k e.also).2 ∨
       c ∈ (applyErrataTags errata e.rfcNumber e.hasErrata
              (applyStateFixups (applyDocChecks e d0).1).1).2 ∨
       c = "added RFC published event at " ++
             fmtDate (synthesized_time ⟨e.pubYear, e.pubMonth, 1⟩ now)) →
      isHeadOf "changed pages" c = false := by
    intro hp c hc
    rcases hc with hc | hc | hc | hc | hc | hc | hc
    · rcases applyDocChecks_note_shapes e d0 c hc with
        h | ⟨hne, h⟩ | ⟨hne, h⟩ | h | h | h | ⟨w, h⟩
      · subst h
        rw [String.append_assoc]
        exact isHeadOf_append_long _ _ _ (by decide) (by decide)
      · subst h
        rw [String.append_assoc]
        exact isHeadOf_append_long _ _ _ (by decide) (by decide)
      · exact absurd hp hne
      · subst h
        exact isHeadOf_append_long _ _ _ (by decide) (by decide)
      · subst h
        decide
      · subst h
        exact isHeadOf_append_long _ _ _ (by decide) (by decide)
      · subst h
        exact isHeadOf_append_short _ _ _ (by decide) (by decide)
    · have h4 := applyStateFixups_notes (applyDocChecks e d0).1 c hc
      simp only [List.mem_cons, List.not_mem_nil, or_false] at h4
      rcases h4 with rfl | rfl | rfl | rfl <;> decide
    · obtain ⟨x, hx⟩ := addRels_notes k "obs" "obsoletes" _ db c hc
      subst hx
      simp only [String.append_assoc]
      exact isHeadOf_append_short _ _ _ (by decide) (by decide)
    · obtain ⟨x, hx⟩ := addRels_notes k "updates" "updates" _ _ c hc
      subst hx
      simp only [String.append_assoc]
      exact isHeadOf_append_short _ _ _ (by decide) (by decide)
    · obtain ⟨sx, hs⟩ := addAlso_notes k e.also _ c hc
      subst hs
      exact isHeadOf_append_long _ _ _ (by decide) (by decide)
    · have h5 := applyErrataTags_notes errata e.rfcNumber e.hasErrata
        (applyStateFixups (applyDocChecks e d0).1).1 c hc
      simp only [List.mem_cons, List.not_mem_nil, or_false] at h5
      rcases h5 with rfl | rfl | rfl | rfl | rfl <;> decide
    · subst hc
      exact isHeadOf_append_long _ _ _ (by decide) (by decide)
  have HA : e.abstract = "" → ∀ c ∈ (processIndexEntry now errata db e).2,
      isHeadOf "changed abstract" c = false := by
    intro ha c hc
    simp only [processIndexEntry, hres] at hc
    rw [hd] at hc
    simp only [Option.getD_some] at hc
    split at hc <;> try split at hc
    all_goals apply hstepA ha c
    all_goals simp only [List.mem_append, List.nil_append, List.append_nil,
      List.mem_singleton, List.not_mem_nil, or_false, false_or] at hc
    · rcases hc with ((((((h | h) | h) | h) | h) | h) | h)
      exacts [Or.inl h, Or.inr (Or.inr (Or.inr (Or.inr (Or.inr (Or.inr h))))), Or.inr (Or.inl h),
        Or.inr (Or.inr (Or.inl h)), Or.inr (Or.inr (Or.inr (Or.inl h))),
        Or.inr (Or.inr (Or.inr (Or.inr (Or.inl h)))),
        Or.inr (Or.inr (Or.inr (Or.inr (Or.inr (Or.inl h)))))]
    · rcases hc with (((((h | h) | h) | h) | h) | h)
      exacts [Or.inl h, Or.inr (Or.inl h), Or.inr (Or.inr (Or.inl h)),
        Or.inr (Or.inr (Or.inr (Or.inl h))), Or.inr (Or.inr (Or.inr (Or.inr (Or.inl h)))),
        Or.inr (Or.inr (Or.inr (Or.inr (Or.inr (Or.inl h)))))]
  have HP : e.pages = "" → ∀ c ∈ (processIndexEntry now errata db e).2,
      isHeadOf "changed pages" c = false := by
    intro hp c hc
    simp only [processIndexEntry, hres] at hc
    rw [hd] at hc
    simp only [Option.getD_some] at hc
    split at hc <;> try split at hc
    all_goals apply hstepP hp c
    all_goals simp only [List.mem_append, List.nil_append, List.append_nil,
      List.mem_singleton, List.not_mem_nil, or_false, false_or] at hc
    · rcases hc with ((((((h | h) | h) | h) | h) | h) | h)
      exacts [Or.inl h, Or.inr (Or.inr (Or.inr (Or.inr (Or.inr (Or.inr h))))), Or.inr (Or.inl h),
        Or.inr (Or.inr (Or.inl h)), Or.inr (Or.inr (Or.inr (Or.inl h))),
        Or.inr (Or.inr (Or.inr (Or.inr (Or.inl h)))),
        Or.inr (Or.inr (Or.inr (Or.inr (Or.inr (Or.inl h)))))]
    · rcases hc with (((((h | h) | h) | h) | h) | h)
      exacts [Or.inl h, Or.inr (Or.inl h), Or.inr (Or.inr (Or.inl h)),
        Or.inr (Or.inr (Or.inr (Or.inl h))), Or.inr (Or.inr (Or.inr (Or.inr (Or.inl h)))),
        Or.inr (Or.inr (Or.inr (Or.inr (Or.inr (Or.inl h)))))]
  exact ⟨(applyErrataTags errata e.rfcNumber e.hasErrata
      (applyStateFixups (applyDocChecks e d0).1).1).1, HFIND,
    fun ha => ⟨habst ha, HA ha⟩, fun hp => ⟨hpgs hp, HP hp⟩⟩

/-- C10 witness: the theorem evaluated on the RFC 7 fixture against an
index entry with an empty abstract but a nonempty page count, exercising
the mixed case. -/
theorem index_empty_fields_preserved_witness :
    (aliasFind exDbRfc7.aliases (rfcName exEntry7Mixed) = some "rfc7" ∧
     docFind exDbRfc7.docs "rfc7" = some exDocRfc7 ∧
     exEntry7Mixed.abstract = "" ∧ ¬ exEntry7Mixed.pages = "") ∧
    (∃ d1, docFind (processIndexEntry ⟨2024, 3, 1⟩ [] exDbRfc7 exEntry7Mixed).1.docs
        "rfc7" = some d1 ∧
      (exEntry7Mixed.abstract = "" →
        d1.abstract = exDocRfc7.abstract ∧
        ∀ c ∈ (processIndexEntry ⟨2024, 3, 1⟩ [] exDbRfc7 exEntry7Mixed).2,
          isHeadOf "changed abstract" c = false) ∧
      (exEntry7Mixed.pages = "" →
        d1.pages = exDocRfc7.pages ∧
        ∀ c ∈ (processIndexEntry ⟨2024, 3, 1⟩ [] exDbRfc7 exEntry7Mixed).2,
          isHeadOf "changed pages" c = false)) :=
  ⟨⟨by decide, by decide, rfl, by decide⟩,
   index_empty_fields_preserved ⟨2024, 3, 1⟩ [] exDbRfc7 exEntry7Mixed "rfc7" exDocRfc7
     (by decide) (by decide)⟩

/- ------------------------------------------------------------------ -/
/- C3                                                                 -/
/- ------------------------------------------------------------------ -/

/-- C3 counterexample: the claim predicts that when all errata records
associated with the document are "Rejected" the document ends with
neither errata tag.  With a feed reporting `has_errata` and an empty
associated-errata list, every associated erratum is vacuously "Rejected",
yet the code computes `all_rejected = doc_errata and all(...)`, which is
Python-falsy on the empty list (rfceditor.py 524), so it takes the
tag-adding branch and the document ends WITH the "errata" tag. -/
theorem errata_tags_counterexample :
    (∀ er ∈ docErrata [] 7, er.status = "Rejected") ∧
    ∃ d1, docFind (processIndexEntry ⟨2024, 3, 1⟩ [] exDbRfc7 exEntry7Errata).1.docs
        "rfc7" = some d1 ∧ "errata" ∈ d1.tags := by
  constructor
  · intro er h
    simp [docErrata] at h
  · refine ⟨(docFind (processIndexEntry ⟨2024, 3, 1⟩ [] exDbRfc7
      exEntry7Errata).1.docs "rfc7").getD dummyDoc, ?_, ?_⟩
    · decide
    · decide

/-- C3 (amended): after `update_docs_from_rfc_index` processes an index
entry that resolves through its canonical alias to an existing document,
the document's errata tags satisfy the reconciliation contract with
`all_rejected` read as the code computes it (at least one associated
erratum, and every one "Rejected"): if the feed reports `has_errata` and
not all-rejected in that sense, the document ends with the "errata" tag,
plus "verified-errata" whenever some associated erratum is "Verified";
otherwise it ends with neither tag.  When all-rejected in that sense holds
and the tag was present, the removal is logged with the distinguishing
note "removed Errata tag (all errata rejected)". -/
theorem errata_tags_reconciled (now : CalDate) (errata : List Erratum)
    (db : IndexDb) (e : IndexEntry) (k : String) (d0 : IndexDoc)
    (hk : aliasFind db.aliases (rfcName e) = some k)
    (hd : docFind db.docs k = some d0) :
    ∃ d1, docFind (processIndexEntry now errata db e).1.docs k = some d1 ∧
      errataTagsSettled errata e d1 ∧
      (((¬ docErrata errata e.rfcNumber = []) ∧
          (∀ er ∈ docErrata errata e.rfcNumber, er.status = "Rejected")) →
        "errata" ∈ d0.tags →
        "removed Errata tag (all errata rejected)" ∈
          (processIndexEntry now errata db e).2) := by
  have hres := resolveDoc_alias db e k hk
  simp only [processIndexEntry, hres]
  try dsimp only
  rw [hd]
  simp only [Option.getD_some]
  obtain ⟨hcn, hcr, hct, hcti, hcab, hcab2, hcpg, hcpg2, hcl, hcst, hcs2, hcg, hcne⟩ :=
    applyDocChecks_spec e d0
  obtain ⟨hfsc, hfst⟩ := applyStateFixups_scalars (applyDocChecks e d0).1
  simp only [docScalars, Prod.mk.injEq] at hfsc
  obtain ⟨hf1, hf2, hf3, hf4, hf5⟩ := hfsc
  obtain ⟨hesc, hest⟩ := applyErrataTags_frame errata e.rfcNumber e.hasErrata
    (applyStateFixups (applyDocChecks e d0).1).1
  simp only [docScalars, Prod.mk.injEq] at hesc
  obtain ⟨he1, he2, he3, he4, he5⟩ := hesc
  obtain ⟨hb1a, hb1d, hb1e⟩ := addRels_frame k "obs" "obsoletes"
    (parse_relation_list db.aliases e.obsoletes) db
  obtain ⟨hb2a, hb2d, hb2e⟩ := addRels_frame k "updates" "updates"
    (parse_relation_list
      (addRels db k "obs" "obsoletes" (parse_relation_list db.aliases e.obsoletes)).1.aliases
      e.updates)
    (addRels db k "obs" "obsoletes" (parse_relation_list db.aliases e.obsoletes)).1
  obtain ⟨hb3d, hb3r, hb3e, hb3new⟩ := addAlso_frame k e.also
    (addRels
      (addRels db k "obs" "obsoletes" (parse_relation_list db.aliases e.obsoletes)).1
      k "updates" "updates"
      (parse_relation_list
        (addRels db k "obs" "obsoletes" (parse_relation_list db.aliases e.obsoletes)).1.aliases
        e.updates)).1
  have hname : (applyErrataTags errata e.rfcNumber e.hasErrata
      (applyStateFixups (applyDocChecks e d0).1).1).1.name = k :=
    he1.trans (hf1.trans (hcn.trans (docFind_name hd)))
  have hdocs :
      (addAlsoAliases
        (addRels
          (addRels db k "obs" "obsoletes" (parse_relation_list db.aliases e.obsoletes)).1
          k "updates" "updates"
          (parse_relation_list
            (addRels db k "obs" "obsoletes"
              (parse_relation_list db.aliases e.obsoletes)).1.aliases
            e.updates)).1 k e.also).1.docs = db.docs :=
    hb3d.trans (hb2d.trans hb1d)
  have hfind : docFind
      (docSet
        (addAlsoAliases
          (addRels
            (addRels db k "obs" "obsoletes" (parse_relation_list db.aliases e.obsoletes)).1
            k "updates" "updates"
            (parse_relation_list
              (addRels db k "obs" "obsoletes"
                (parse_relation_list db.aliases e.obsoletes)).1.aliases
              e.updates)).1 k e.also).1.docs
        (applyErrataTags errata e.rfcNumber e.hasErrata
          (applyStateFixups (applyDocChecks e d0).1).1).1) k =
      some (applyErrataTags errata e.rfcNumber e.hasErrata
        (applyStateFixups (applyDocChecks e d0).1).1).1 := by
    rw [hdocs]
    exact docFind_docSet_self _ hd hname
  refine ⟨(applyErrataTags errata e.rfcNumber e.hasErrata
    (applyStateFixups (applyDocChecks e d0).1).1).1, ?_, ?_, ?_⟩
  · rw [apply_ite (fun p : IndexDb × List String => p.1.docs)]
    dsimp only
    rw [ite_self]
    exact hfind
  · exact applyErrataTags_settled errata e (applyStateFixups (applyDocChecks e d0).1).1
  · intro hall hmem0
    have hmem : "errata" ∈ (applyStateFixups (applyDocChecks e d0).1).1.tags := by
      rw [hfst, hct]; exact hmem0
    have hnote := applyErrataTags_removed_note errata e.rfcNumber e.hasErrata
      (applyStateFixups (applyDocChecks e d0).1).1 hall.1
      (List.all_eq_true.mpr (fun er her => by
        simpa using hall.2 er (by simpa using her)))
      hmem
    split <;> split
    · next hcs =>
        have hx : "removed Errata tag (all errata rejected)" ∈ ([] : List String) := by
          rw [← hcs]
          exact List.mem_append.mpr (Or.inr hnote)
        simp at hx
    · exact List.mem_append.mpr (Or.inr hnote)
    · next hcs =>
        have hx : "removed Errata tag (all errata rejected)" ∈ ([] : List String) := by
          rw [← hcs]
          exact List.mem_append.mpr (Or.inr hnote)
        simp at hx
    · exact List.mem_append.mpr (Or.inr hnote)

/-- C3 witness: the amended theorem evaluated on the RFC 7 fixture with a
feed reporting errata and a single associated "Verified" erratum. -/
theorem errata_tags_reconciled_witness :
    (aliasFind exDbRfc7.aliases (rfcName exEntry7Errata) = some "rfc7" ∧
     docFind exDbRfc7.docs "rfc7" = some exDocRfc7) ∧
    (∃ d1, docFind (processIndexEntry ⟨2024, 3, 1⟩ [⟨"RFC0007", "Verified"⟩]
        exDbRfc7 exEntry7Errata).1.docs "rfc7" = some d1 ∧
      errataTagsSettled [⟨"RFC0007", "Verified"⟩] exEntry7Errata d1 ∧
      (((¬ docErrata [⟨"RFC0007", "Verified"⟩] exEntry7Errata.rfcNumber = []) ∧
          (∀ er ∈ docErrata [⟨"RFC0007", "Verified"⟩] exEntry7Errata.rfcNumber,
            er.status = "Rejected")) →
        "errata" ∈ exDocRfc7.tags →
        "removed Errata tag (all errata rejected)" ∈
          (processIndexEntry ⟨2024, 3, 1⟩ [⟨"RFC0007", "Verified"⟩]
            exDbRfc7 exEntry7Errata).2)) :=
  ⟨⟨by decide, by decide⟩,
   errata_tags_reconciled ⟨2024, 3, 1⟩ [⟨"RFC0007", "Verified"⟩] exDbRfc7 exEntry7Errata
     "rfc7" exDocRfc7 (by decide) (by decide)⟩

/- ------------------------------------------------------------------ -/
/- Further document-row and database lemmas for idempotence           -/
/- ------------------------------------------------------------------ -/

